import Mathlib

/-!
Shallow embedding of the SPC (statistical process control) analysis pipeline
of this repository: `src/app/spcUtils.ts`, `src/lib/spcAnalysis.ts` and
`src/components/spc/SPCPattern.tsx`.

Numbers: the TypeScript code computes with IEEE doubles; the embedding uses
exact arithmetic — `ℚ` wherever the code is square-root free, `ℝ` for the
standard deviation (`Math.sqrt` is modelled by `Real.sqrt`) and for the
capability ratios built from it.  `Number(x.toFixed(k))`, applied by the
source only when packaging the final report, is presentation rounding and is
not modelled: the theorems below are about the computed values.
-/

/-- One raw inspection record.  The TypeScript record carries the three
numeric fields as nullable strings and validates them with
`parseFloat` + `isNaN`; a field is modelled as `Option ℚ`, `none` standing
for a missing or unparsable field. -/
structure InspectionData where
  ActualSpecification : Option ℚ
  FromSpecification : Option ℚ
  ToSpecification : Option ℚ
deriving DecidableEq

namespace spcUtils

/-- Row of the control-chart constants table of `spcUtils.ts` (lines 4-12). -/
structure ChartConstants where
  A2 : ℚ
  D3 : ℚ
  D4 : ℚ
  d2 : ℚ
deriving DecidableEq

/-- The `controlChartConstants` lookup table, keyed by sample size `"1"`..`"5"`.
Other keys are absent in the source (the lookup only happens behind the
1..5 guard of `calculateAnalysisData`); absence is modelled by an all-zero
row that is never reached. -/
def constantsFor : ℕ → ChartConstants
  | 1 => ⟨2.66, 0, 3.267, 1.128⟩
  | 2 => ⟨1.88, 0, 3.267, 1.128⟩
  | 3 => ⟨1.772, 0, 2.574, 1.693⟩
  | 4 => ⟨0.796, 0, 2.282, 2.059⟩
  | 5 => ⟨0.691, 0, 2.114, 2.326⟩
  | _ => ⟨0, 0, 0, 0⟩

/-- `calculateMean` (spcUtils.ts lines 19-22): `null` on an empty array,
otherwise sum divided by length. -/
def calculateMean (data : List ℚ) : Option ℚ :=
  if data = [] then none else some (data.sum / data.length)

/-- `calculateStdDev` (spcUtils.ts lines 30-37): the divisor of the variance
is the plain mean of the squared deviations, i.e. the POPULATION formula
(divide by N, not N − 1). -/
noncomputable def calculateStdDev (data : List ℚ) (mean : Option ℚ) : Option ℝ :=
  if data = [] then none
  else
    match mean.orElse (fun _ => calculateMean data) with
    | none => none
    | some dataMean =>
        (calculateMean (data.map (fun value => (value - dataMean) ^ 2))).map
          (fun variance => Real.sqrt (variance : ℝ))

/-- Loop body of `calculateSubgroupXBar` for sample sizes ≥ 2 (spcUtils.ts
lines 53-60): slice off `n` measurements at a time (the trailing slice may be
shorter) and push the arithmetic mean of each slice.  `n = 0` cannot occur
(the caller guards `1 ≤ n ≤ 5`); the JS loop would not advance there, the
embedding returns `[]`. -/
def xBarLoop (n : ℕ) (l : List ℚ) : List ℚ :=
  if h : n = 0 ∨ l = [] then []
  else ((l.take n).sum / (l.take n).length) :: xBarLoop n (l.drop n)
termination_by l.length
decreasing_by
  push_neg at h
  simp only [List.length_drop]
  exact Nat.sub_lt (List.length_pos.mpr h.2) (Nat.pos_of_ne_zero h.1)

/-- `calculateSubgroupXBar` (spcUtils.ts lines 45-64): for sample size 1 each
measurement is its own X-bar value, otherwise subgroup means. -/
def calculateSubgroupXBar (measurements : List ℚ) (sampleSize : ℕ) : List ℚ :=
  if sampleSize = 1 then measurements else xBarLoop sampleSize measurements

/-- `Math.max(...subgroup)` on a non-empty array. -/
def listMax : List ℚ → ℚ
  | [] => 0
  | x :: xs => xs.foldl max x

/-- `Math.min(...subgroup)` on a non-empty array. -/
def listMin : List ℚ → ℚ
  | [] => 0
  | x :: xs => xs.foldl min x

/-- Loop body of `calculateSubgroupRanges` for sample sizes ≥ 2 (spcUtils.ts
lines 82-89): a slice contributes `max - min` only when it has at least two
members; a shorter trailing slice is skipped, not zero-filled. -/
def rangesLoop (n : ℕ) (l : List ℚ) : List ℚ :=
  if h : n = 0 ∨ l = [] then []
  else if 2 ≤ (l.take n).length then
    (listMax (l.take n) - listMin (l.take n)) :: rangesLoop n (l.drop n)
  else rangesLoop n (l.drop n)
termination_by l.length
decreasing_by
  all_goals
    push_neg at h
    simp only [List.length_drop]
    exact Nat.sub_lt (List.length_pos.mpr h.2) (Nat.pos_of_ne_zero h.1)

/-- `calculateSubgroupRanges` (spcUtils.ts lines 72-93): moving ranges
`|x[i] - x[i-1]|` for sample size 1, within-subgroup ranges otherwise. -/
def calculateSubgroupRanges (measurements : List ℚ) (sampleSize : ℕ) : List ℚ :=
  if sampleSize = 1 then
    List.zipWith (fun prev curr => |curr - prev|) measurements measurements.tail
  else rangesLoop sampleSize measurements

/-- `Math.ceil(Math.sqrt n)` for a natural number `n`, computed exactly. -/
def ceilSqrt (n : ℕ) : ℕ :=
  if Nat.sqrt n * Nat.sqrt n = n then Nat.sqrt n else Nat.sqrt n + 1

/-- Histogram output of `calculateDistributionData` (spcUtils.ts lines
102-145); `data` is the list of (bin center, frequency) pairs. -/
structure DistributionData where
  data : List (ℚ × ℕ)
  statsMin : ℚ
  statsMax : ℚ
  statsMean : ℚ
  statsTarget : ℚ
  binEdges : List ℚ
deriving DecidableEq

/-- Bin assignment of one measurement (spcUtils.ts lines 121-128): the
maximum value is forced into the last bin; otherwise the bin index is
`floor((value - binStart)/binWidth)` and the increment happens only if that
index lies in `[0, binCount)` — an out-of-range value is silently dropped
(`none`), not clamped. -/
def binAssign (maxv binStart binWidth : ℚ) (binCount : ℕ) (value : ℚ) : Option ℕ :=
  if value = maxv then some (binCount - 1)
  else if 0 ≤ Int.floor ((value - binStart) / binWidth) ∧
      Int.floor ((value - binStart) / binWidth) < (binCount : ℤ) then
    some (Int.floor ((value - binStart) / binWidth)).toNat
  else none

/-- `calculateDistributionData` (spcUtils.ts lines 102-145).  The imperative
`bins[i]++` accumulation is modelled by counting, per bin index, the
measurements assigned to it — increments commute, so the final counts agree
with the source's array mutation. -/
def calculateDistributionData (data : List ℚ) (lsl usl : ℚ) : Option DistributionData :=
  if data = [] then none
  else
    let mn := listMin data
    let mx := listMax data
    let binCount := ceilSqrt data.length
    let binWidth := (mx - mn) / binCount
    let binStart := min mn lsl
    some
      { data := (List.range binCount).map
          (fun (i : ℕ) => (binStart + (i : ℚ) * binWidth + binWidth / 2,
            (data.filter (fun v => decide (binAssign mx binStart binWidth binCount v = some i))).length))
        statsMin := mn
        statsMax := mx
        statsMean := (calculateMean data).getD 0
        statsTarget := (usl + lsl) / 2
        binEdges := (List.range (binCount + 1)).map
          (fun (i : ℕ) => binStart + (i : ℚ) * binWidth) }

/-- Total frequency of a histogram, used to state the bin-conservation
property. -/
def sumFreqs (o : Option DistributionData) : Option ℕ :=
  o.map (fun d => (d.data.map Prod.snd).sum)

/-- Result record of `analyzeRuns` (spcUtils.ts lines 152-213). -/
structure RunsResult where
  maxRunAbove : ℕ
  maxRunBelow : ℕ
  maxTrendUp : ℕ
  maxTrendDown : ℕ

/-- One step of the run-counting loop of `analyzeRuns` (spcUtils.ts lines
169-183).  State is `(currentRunAbove, currentRunBelow, maxRunAbove,
maxRunBelow)`; a value equal to the mean resets both counters. -/
def runStep (mean : ℚ) : (ℕ × ℕ × ℕ × ℕ) → ℚ → (ℕ × ℕ × ℕ × ℕ) :=
  fun s value =>
    if mean < value then (s.1 + 1, 0, max s.2.2.1 (s.1 + 1), s.2.2.2)
    else if value < mean then (0, s.2.1 + 1, s.2.2.1, max s.2.2.2 (s.2.1 + 1))
    else (0, 0, s.2.2.1, s.2.2.2)

/-- One step of the trend-counting loop of `analyzeRuns` (spcUtils.ts lines
191-205), consuming the pair (previous value, current value); counters start
at and reset to 1, equal neighbours reset both. -/
def trendStep : (ℕ × ℕ × ℕ × ℕ) → ℚ × ℚ → (ℕ × ℕ × ℕ × ℕ) :=
  fun s pr =>
    if pr.1 < pr.2 then (s.1 + 1, 1, max s.2.2.1 (s.1 + 1), s.2.2.2)
    else if pr.2 < pr.1 then (1, s.2.1 + 1, s.2.2.1, max s.2.2.2 (s.2.1 + 1))
    else (1, 1, s.2.2.1, s.2.2.2)

/-- `analyzeRuns` (spcUtils.ts lines 152-213). -/
def analyzeRuns (data : List ℚ) : Option RunsResult :=
  if data = [] then none
  else
    match calculateMean data with
    | none => none
    | some mean =>
        let r := data.foldl (runStep mean) (0, 0, 0, 0)
        let t := (data.zip data.tail).foldl trendStep (1, 1, 1, 1)
        some ⟨r.2.2.1, r.2.2.2, t.2.2.1, t.2.2.2⟩

/-- The record filter of `calculateAnalysisData` (spcUtils.ts lines 232-244):
keep a record iff all three numeric fields parse. -/
def validDataOf (inspectionData : List InspectionData) : List InspectionData :=
  inspectionData.filter (fun d =>
    d.ActualSpecification.isSome && d.FromSpecification.isSome && d.ToSpecification.isSome)

/-- The measurement sequence (spcUtils.ts line 246). -/
def measurementsOf (inspectionData : List InspectionData) : List ℚ :=
  (validDataOf inspectionData).filterMap (fun d => d.ActualSpecification)

/-- `grandMean = calculateMean(xBarValues) ?? 0` (spcUtils.ts line 268). -/
def grandMeanOf (ms : List ℚ) (n : ℕ) : ℚ :=
  (calculateMean (calculateSubgroupXBar ms n)).getD 0

/-- `avgRange = calculateMean(rangeValues) ?? 0` (spcUtils.ts line 269). -/
def avgRangeOf (ms : List ℚ) (n : ℕ) : ℚ :=
  (calculateMean (calculateSubgroupRanges ms n)).getD 0

/-- `xBarUcl` (spcUtils.ts line 271). -/
def xBarUclOf (ms : List ℚ) (n : ℕ) : ℚ :=
  grandMeanOf ms n + (constantsFor n).A2 * avgRangeOf ms n

/-- `xBarLcl` (spcUtils.ts line 272). -/
def xBarLclOf (ms : List ℚ) (n : ℕ) : ℚ :=
  grandMeanOf ms n - (constantsFor n).A2 * avgRangeOf ms n

/-- `rangeUcl` (spcUtils.ts line 273). -/
def rangeUclOf (ms : List ℚ) (n : ℕ) : ℚ := (constantsFor n).D4 * avgRangeOf ms n

/-- `rangeLcl` (spcUtils.ts line 274). -/
def rangeLclOf (ms : List ℚ) (n : ℕ) : ℚ := (constantsFor n).D3 * avgRangeOf ms n

/-- `withinStdDev` (spcUtils.ts line 281). -/
def withinStdDevOf (ms : List ℚ) (n : ℕ) (stdDev : ℝ) : ℝ :=
  if n = 1 ∨ (constantsFor n).d2 = 0 then stdDev
  else ((avgRangeOf ms n / (constantsFor n).d2 : ℚ) : ℝ)

/-- The division-by-zero clamp of spcUtils.ts lines 284-285 (and
spcAnalysis.ts line 145): a sigma that is exactly 0 is replaced by the small
positive epsilon `0.000001` before being used as a divisor. -/
noncomputable def safeSigma (x : ℝ) : ℝ := if x = 0 then 1 / 1000000 else x

/-- The computed analysis quantities of `calculateAnalysisData` (spcUtils.ts
lines 221-404), at full precision, before the `toFixed` presentation
rounding of the returned report.  The histogram block (built by the
separately embedded `calculateDistributionData`) and derived verdict strings
not touched by any claim are left to the presentation layer. -/
structure AnalysisResult where
  xBarValues : List ℚ
  rangeValues : List ℚ
  grandMean : ℚ
  avgRange : ℚ
  xBarUcl : ℚ
  xBarLcl : ℚ
  rangeUcl : ℚ
  rangeLcl : ℚ
  stdDev : ℝ
  withinStdDev : ℝ
  cp : ℝ
  cpu : ℝ
  cpl : ℝ
  cpk : ℝ
  pp : ℝ
  ppu : ℝ
  ppl : ℝ
  ppk : ℝ
  lsl : ℚ
  usl : ℚ
  pointsOutsideXBar : ℕ
  pointsOutsideRange : ℕ
  hasEightConsecutive : Bool
  hasSixConsecutiveTrend : Bool
  processStability : String

/-- Body of `calculateAnalysisData` after its guards (spcUtils.ts lines
256-404): control limits, capability and performance indices, special-cause
detection and the stability verdict. -/
noncomputable def analysisCore (ms : List ℚ) (stdDev : ℝ) (lsl usl : ℚ) (n : ℕ) :
    AnalysisResult :=
  let xBarValues := calculateSubgroupXBar ms n
  let rangeValues := calculateSubgroupRanges ms n
  let grandMean := grandMeanOf ms n
  let safeWithin := safeSigma (withinStdDevOf ms n stdDev)
  let safeStd := safeSigma stdDev
  let cpu := ((usl : ℝ) - (grandMean : ℝ)) / (3 * safeWithin)
  let cpl := ((grandMean : ℝ) - (lsl : ℝ)) / (3 * safeWithin)
  let ppu := ((usl : ℝ) - (grandMean : ℝ)) / (3 * safeStd)
  let ppl := ((grandMean : ℝ) - (lsl : ℝ)) / (3 * safeStd)
  let runs := (analyzeRuns xBarValues).getD ⟨0, 0, 0, 0⟩
  let pointsOutsideXBar :=
    (xBarValues.filter
      (fun y => decide (xBarUclOf ms n < y) || decide (y < xBarLclOf ms n))).length
  let hasEight := decide (8 ≤ runs.maxRunAbove) || decide (8 ≤ runs.maxRunBelow)
  { xBarValues := xBarValues
    rangeValues := rangeValues
    grandMean := grandMean
    avgRange := avgRangeOf ms n
    xBarUcl := xBarUclOf ms n
    xBarLcl := xBarLclOf ms n
    rangeUcl := rangeUclOf ms n
    rangeLcl := rangeLclOf ms n
    stdDev := stdDev
    withinStdDev := withinStdDevOf ms n stdDev
    cp := ((usl : ℝ) - (lsl : ℝ)) / (6 * safeWithin)
    cpu := cpu
    cpl := cpl
    cpk := min cpu cpl
    pp := ((usl : ℝ) - (lsl : ℝ)) / (6 * safeStd)
    ppu := ppu
    ppl := ppl
    ppk := min ppu ppl
    lsl := lsl
    usl := usl
    pointsOutsideXBar := pointsOutsideXBar
    pointsOutsideRange :=
      (rangeValues.filter
        (fun y => decide (rangeUclOf ms n < y) || decide (y < rangeLclOf ms n))).length
    hasEightConsecutive := hasEight
    hasSixConsecutiveTrend :=
      decide (6 ≤ runs.maxTrendUp) || decide (6 ≤ runs.maxTrendDown)
    processStability := if pointsOutsideXBar = 0 && !hasEight then "Stable" else "Unstable" }

/-- `calculateAnalysisData` (spcUtils.ts lines 221-404).  Thrown `Error`s are
modelled by `Except.error` with the thrown message.  Note the integer guard:
for an integer sample size the table lookup succeeds exactly when
`1 ≤ sampleSize ≤ 5`, so the combined condition of line 227 reduces to the
range check.  The source reads `validData[0]` only after the length guard,
so the (unreachable) empty case reuses the same error. -/
noncomputable def calculateAnalysisData (inspectionData : List InspectionData)
    (sampleSize : ℤ) : Except String AnalysisResult :=
  if sampleSize < 1 ∨ 5 < sampleSize then
    Except.error "Sample size must be between 1 and 5"
  else if ((measurementsOf inspectionData).length : ℤ) < sampleSize then
    Except.error "Insufficient valid data for analysis"
  else
    match validDataOf inspectionData with
    | [] => Except.error "Insufficient valid data for analysis"
    | d0 :: _ =>
        match calculateStdDev (measurementsOf inspectionData)
            (calculateMean (measurementsOf inspectionData)) with
        | some stdDev =>
            Except.ok (analysisCore (measurementsOf inspectionData) stdDev
              (d0.FromSpecification.getD 0) (d0.ToSpecification.getD 0) sampleSize.toNat)
        | none => Except.error "Failed to calculate statistics"

end spcUtils

namespace spcAnalysis

/-- The quantities computed by the success path of `analyzeData`
(spcAnalysis.ts lines 110-228), at full precision. -/
structure AnalysisB where
  measurements : List ℚ
  mean : ℚ
  stdDev : ℝ
  avgRange : ℚ
  xBarUcl : ℚ
  xBarLcl : ℚ
  rangeUcl : ℚ
  rangeLcl : ℚ
  cp : ℝ
  cpu : ℝ
  cpl : ℝ
  cpk : ℝ
  pp : ℝ
  ppu : ℝ
  ppl : ℝ
  ppk : ℝ
  lsl : ℚ
  usl : ℚ

/-- `mean` (spcAnalysis.ts line 121). -/
def meanB (ms : List ℚ) : ℚ := ms.sum / ms.length

/-- `stdDev` (spcAnalysis.ts lines 122-124): this variant divides the sum of
squared deviations by N − 1 (sample formula).  The degenerate case N = 1
divides by zero (`NaN` in JS, 0 in `ℚ`) and is outside the modelled domain —
every claim settled against this variant concerns its guard paths or
N ≥ 2. -/
noncomputable def stdDevB (ms : List ℚ) : ℝ :=
  Real.sqrt (((ms.map (fun b => (b - meanB ms) ^ 2)).sum /
    ((ms.length : ℚ) - 1) : ℚ) : ℝ)

/-- `rangeData` y-values (spcAnalysis.ts lines 132-135): moving ranges. -/
def rangeDataB (ms : List ℚ) : List ℚ :=
  List.zipWith (fun prev curr => |curr - prev|) ms ms.tail

/-- `avgRange` (spcAnalysis.ts line 138); the empty-series case divides by
zero (`NaN` in JS, 0 in `ℚ`, unreachable for N ≥ 2). -/
def avgRangeB (ms : List ℚ) : ℚ := (rangeDataB ms).sum / (rangeDataB ms).length

/-- `safeStdDev` (spcAnalysis.ts line 145), the same epsilon clamp as in
spcUtils.ts. -/
noncomputable def safeStdB (ms : List ℚ) : ℝ := spcUtils.safeSigma (stdDevB ms)

/-- Success-path computations of `analyzeData` (spcAnalysis.ts lines
121-228): basic statistics, individuals-chart limits (constants 2.66 and
3.267 hard-coded) and the capability/performance families, which in this
variant share the same overall sigma, so the Pp family repeats the Cp
family verbatim (lines 146-153). -/
noncomputable def analysisCoreB (ms : List ℚ) (lsl usl : ℚ) : AnalysisB :=
  { measurements := ms
    mean := meanB ms
    stdDev := stdDevB ms
    avgRange := avgRangeB ms
    xBarUcl := meanB ms + 2.66 * avgRangeB ms
    xBarLcl := meanB ms - 2.66 * avgRangeB ms
    rangeUcl := 3.267 * avgRangeB ms
    rangeLcl := 0
    cp := ((usl : ℝ) - (lsl : ℝ)) / (6 * safeStdB ms)
    cpu := ((usl : ℝ) - (meanB ms : ℝ)) / (3 * safeStdB ms)
    cpl := ((meanB ms : ℝ) - (lsl : ℝ)) / (3 * safeStdB ms)
    cpk := min (((usl : ℝ) - (meanB ms : ℝ)) / (3 * safeStdB ms))
      (((meanB ms : ℝ) - (lsl : ℝ)) / (3 * safeStdB ms))
    pp := ((usl : ℝ) - (lsl : ℝ)) / (6 * safeStdB ms)
    ppu := ((usl : ℝ) - (meanB ms : ℝ)) / (3 * safeStdB ms)
    ppl := ((meanB ms : ℝ) - (lsl : ℝ)) / (3 * safeStdB ms)
    ppk := min (((usl : ℝ) - (meanB ms : ℝ)) / (3 * safeStdB ms))
      (((meanB ms : ℝ) - (lsl : ℝ)) / (3 * safeStdB ms))
    lsl := lsl
    usl := usl }

/-- The post-fetch core of `analyzeData` (spcAnalysis.ts lines 92-230).  The
record filter keeps a record iff its three fields parse (`parseFloat(null)`
is `NaN`, so this coincides with the `spcUtils` filter).  Thrown errors are
modelled by `Except.error`; the surrounding `try/catch` converts them to a
`null` return, so an `Except.error` is exactly the "no AnalysisData
produced" outcome. -/
noncomputable def analyzeData (inspectionData : List InspectionData) :
    Except String AnalysisB :=
  if inspectionData.length = 0 then Except.error "No inspection data available"
  else
    match spcUtils.validDataOf inspectionData with
    | [] => Except.error "No valid measurements found in the data"
    | d0 :: rest =>
        if d0.ToSpecification.getD 0 ≤ d0.FromSpecification.getD 0 then
          Except.error "Invalid specification limits: LSL must be less than USL"
        else
          Except.ok (analysisCoreB ((d0 :: rest).filterMap (fun d => d.ActualSpecification))
            (d0.FromSpecification.getD 0) (d0.ToSpecification.getD 0))

end spcAnalysis

namespace SPCPattern

/-- `PatternResult` (SPCPattern.tsx lines 10-14); the optional `pointIndices`
field is `[]` when absent. -/
structure PatternResult where
  detected : Bool
  description : String
  pointIndices : List ℚ
deriving DecidableEq

/-- `xBarData[k].y`; every access in the source is in range, so the `getD`
default is never read. -/
def yAt (l : List (ℚ × ℚ)) (k : ℕ) : ℚ := (l.getD k (0, 0)).2

/-- The `increasing` flag of the window check of `detectTrends`
(SPCPattern.tsx lines 142-151): stays true iff each of the 6 inner
comparisons sees a strict rise (an equal neighbour falsifies it). -/
def trendIncAt (l : List (ℚ × ℚ)) (i : ℕ) : Bool :=
  decide (∀ j ∈ List.range 7, 1 ≤ j → yAt l (i + j - 1) < yAt l (i + j))

/-- The `decreasing` flag of the window check of `detectTrends`. -/
def trendDecAt (l : List (ℚ × ℚ)) (i : ℕ) : Bool :=
  decide (∀ j ∈ List.range 7, 1 ≤ j → yAt l (i + j) < yAt l (i + j - 1))

/-- `detectTrends` (SPCPattern.tsx lines 136-166): scan windows of 7
consecutive points left to right and report the first strictly monotone one;
`find?` models the early `return`. -/
def detectTrends (xBarData : List (ℚ × ℚ)) : PatternResult :=
  match (List.range (xBarData.length - 6)).find?
      (fun i => trendIncAt xBarData i || trendDecAt xBarData i) with
  | some i =>
      { detected := true
        description :=
          if trendIncAt xBarData i then "7 or more consecutive points increasing"
          else "7 or more consecutive points decreasing"
        pointIndices := ((xBarData.drop i).take 7).map Prod.fst }
  | none => { detected := false, description := "No trend detected", pointIndices := [] }

end SPCPattern

/-! ## Spec-side definitions, used to state the claims against the code -/

/-- Population variance (divisor N) of a measurement list around its mean —
the formula actually computed inside `spcUtils.calculateStdDev`. -/
def popVariance (data : List ℚ) : ℚ :=
  (data.map (fun v => (v - data.sum / data.length) ^ 2)).sum / data.length

/-- Sample standard deviation (divisor N − 1), the formula the spec
prescribes for the overall sigma of the Pp family. -/
noncomputable def sampleStdDev (data : List ℚ) : ℝ :=
  Real.sqrt (((data.map (fun v => (v - data.sum / data.length) ^ 2)).sum /
    ((data.length : ℚ) - 1) : ℚ) : ℝ)

/-- A run of `k` consecutive entries of `l`, starting at offset `i`, all
satisfying `p`. -/
def hasRun (k : ℕ) (p : ℚ → Bool) (l : List ℚ) : Prop :=
  ∃ i, i + k ≤ l.length ∧ ∀ x ∈ (l.drop i).take k, p x = true

/-- Reference fold computing (length of the current trailing run, length of
the longest run so far) of entries satisfying `p`; the above/below counters
of `analyzeRuns` project onto it. -/
def runFold (p : ℚ → Bool) (l : List ℚ) : ℕ × ℕ :=
  l.foldl (fun s v => if p v then (s.1 + 1, max s.2 (s.1 + 1)) else (0, s.2)) (0, 0)

/-- Spec-side consecutive chunking: partition a list into slices of `n`
with a possibly shorter trailing slice. -/
def chunksOf (n : ℕ) (l : List ℚ) : List (List ℚ) :=
  if _h : n = 0 ∨ l = [] then []
  else l.take n :: chunksOf n (l.drop n)
termination_by l.length
decreasing_by
  push_neg at _h
  simp only [List.length_drop]
  exact Nat.sub_lt (List.length_pos.mpr _h.2) (Nat.pos_of_ne_zero _h.1)

/-- The chunk sizes produced by chunking a list of length `m` into slices of
`n`. -/
def natChunks (n m : ℕ) : List ℕ :=
  if _h : n = 0 ∨ m = 0 then []
  else min n m :: natChunks n (m - n)
termination_by m
decreasing_by
  push_neg at _h
  exact Nat.sub_lt (Nat.pos_of_ne_zero _h.2) (Nat.pos_of_ne_zero _h.1)

/-- Strictly increasing run of `m` mean-chart points starting at offset
`i`. -/
def strictIncRun (ys : List (ℚ × ℚ)) (i m : ℕ) : Prop :=
  ∀ j, j + 1 < m → SPCPattern.yAt ys (i + j) < SPCPattern.yAt ys (i + j + 1)

/-- Strictly decreasing run of `m` mean-chart points starting at offset
`i`. -/
def strictDecRun (ys : List (ℚ × ℚ)) (i m : ℕ) : Prop :=
  ∀ j, j + 1 < m → SPCPattern.yAt ys (i + j + 1) < SPCPattern.yAt ys (i + j)

/-- The spec's Trend condition: some run of at least 7 consecutive points,
strictly monotonically increasing or strictly monotonically decreasing. -/
def hasTrendRun (ys : List (ℚ × ℚ)) : Prop :=
  ∃ i m, 7 ≤ m ∧ i + m ≤ ys.length ∧ (strictIncRun ys i m ∨ strictDecRun ys i m)

/-- Concrete two-record batch (values 1 and 3, limits 0 and 10) used by the
witnesses; with sample size 1 its analysis completes with overall sigma 1. -/
def sampleBatch : List InspectionData :=
  [⟨some 1, some 0, some 10⟩, ⟨some 3, some 0, some 10⟩]

/-! ## Helper lemmas -/

/-- The epsilon clamp never returns zero — this is what keeps every sigma
divisor of the pipeline away from division by zero. -/
theorem safeSigma_ne_zero (x : ℝ) : spcUtils.safeSigma x ≠ 0 := by
  unfold spcUtils.safeSigma
  split
  · norm_num
  · assumption

/-- Evaluation of the pipeline on the concrete witness batch. -/
theorem sampleBatch_ok :
    spcUtils.calculateAnalysisData sampleBatch 1 =
      Except.ok (spcUtils.analysisCore [1, 3] 1 0 10 1) := by
  have hm : spcUtils.measurementsOf sampleBatch = [1, 3] := by rfl
  have hv : spcUtils.validDataOf sampleBatch =
      [⟨some 1, some 0, some 10⟩, ⟨some 3, some 0, some 10⟩] := by rfl
  unfold spcUtils.calculateAnalysisData
  rw [hm, hv]
  norm_num [spcUtils.calculateStdDev, spcUtils.calculateMean, Option.orElse,
    List.cons_ne_nil, Real.sqrt_one, Rat.cast_one]

/-- Inversion of a successful `calculateAnalysisData` run: the guards passed
and the result is `analysisCore` applied to the extracted measurements,
limits and sample size. -/
theorem calc_ok_elim {input : List InspectionData} {s : ℤ}
    {r : spcUtils.AnalysisResult}
    (h : spcUtils.calculateAnalysisData input s = Except.ok r) :
    ∃ d0 rest stdDev,
      spcUtils.validDataOf input = d0 :: rest ∧
      1 ≤ s ∧ s ≤ 5 ∧
      s ≤ ((spcUtils.measurementsOf input).length : ℤ) ∧
      spcUtils.calculateStdDev (spcUtils.measurementsOf input)
        (spcUtils.calculateMean (spcUtils.measurementsOf input)) = some stdDev ∧
      r = spcUtils.analysisCore (spcUtils.measurementsOf input) stdDev
        (d0.FromSpecification.getD 0) (d0.ToSpecification.getD 0) s.toNat := by
  unfold spcUtils.calculateAnalysisData at h
  split at h
  · exact absurd h (by simp)
  next hguard =>
  split at h
  · exact absurd h (by simp)
  next hlen =>
  split at h
  · exact absurd h (by simp)
  next _x d0 rest hv =>
  split at h
  next stdDev hsd =>
    exact ⟨d0, rest, stdDev, hv, by omega, by omega, by omega, hsd,
      (Except.ok.injEq _ _).mp h.symm⟩
  next hsd => exact absurd h (by simp)

/-! ## Claim C10 -/

/-- C10: for every sample size outside the integer range 1..5,
`calculateAnalysisData` throws "Sample size must be between 1 and 5"
independently of the records, so no analysis result is produced. -/
theorem claim_C10 (input : List InspectionData) (s : ℤ) (h : s < 1 ∨ 5 < s) :
    spcUtils.calculateAnalysisData input s =
      Except.error "Sample size must be between 1 and 5" := by
  unfold spcUtils.calculateAnalysisData
  rw [if_pos h]

/-- C10 witness: sample sizes 6 and 0 are rejected with the guard message. -/
theorem claim_C10_witness :
    spcUtils.calculateAnalysisData [] 6 =
      Except.error "Sample size must be between 1 and 5" ∧
    spcUtils.calculateAnalysisData [⟨some 1, some 0, some 2⟩] 0 =
      Except.error "Sample size must be between 1 and 5" :=
  ⟨claim_C10 [] 6 (by norm_num), claim_C10 [⟨some 1, some 0, some 2⟩] 0 (by norm_num)⟩

/-! ## Claim C3 -/

/-- C3 counterexample: a batch whose first (and only) kept record has
lsl = 10 ≥ usl = 1, yet `calculateAnalysisData` (spcUtils.ts) produces an
analysis result instead of failing: it contains no limit-order check. -/
theorem claim_C3_counterexample :
    spcUtils.validDataOf [⟨some 5, some 10, some 1⟩] = [⟨some 5, some 10, some 1⟩] ∧
    ((⟨some 5, some 10, some 1⟩ : InspectionData).ToSpecification.getD 0 ≤
      (⟨some 5, some 10, some 1⟩ : InspectionData).FromSpecification.getD 0) ∧
    (spcUtils.calculateAnalysisData [⟨some 5, some 10, some 1⟩] 1).isOk = true := by
  refine ⟨by decide, by decide, ?_⟩
  simp [spcUtils.calculateAnalysisData, spcUtils.measurementsOf, spcUtils.validDataOf,
    spcUtils.calculateStdDev, spcUtils.calculateMean, Except.isOk, Except.toBool]

/-- C3 amended: the lsl ≥ usl rejection exists only in the `analyzeData`
variant (spcAnalysis.ts lines 116-118), which fails with "Invalid
specification limits: LSL must be less than USL" whenever the first kept
record has lsl ≥ usl; `calculateAnalysisData` (spcUtils.ts) performs no such
check and completes normally. -/
theorem claim_C3 (input : List InspectionData) (d0 : InspectionData)
    (rest : List InspectionData) (hv : spcUtils.validDataOf input = d0 :: rest)
    (hl : d0.ToSpecification.getD 0 ≤ d0.FromSpecification.getD 0) :
    spcAnalysis.analyzeData input =
      Except.error "Invalid specification limits: LSL must be less than USL" := by
  have hne : input.length ≠ 0 := by
    intro he
    rw [List.length_eq_zero] at he
    rw [he] at hv
    simp [spcUtils.validDataOf] at hv
  simp [spcAnalysis.analyzeData, hv, hne, hl]

/-- C3 witness: the concrete inverted-limits batch is rejected by
`analyzeData`. -/
theorem claim_C3_witness :
    spcAnalysis.analyzeData [⟨some 5, some 10, some 1⟩] =
      Except.error "Invalid specification limits: LSL must be less than USL" :=
  claim_C3 [⟨some 5, some 10, some 1⟩] ⟨some 5, some 10, some 1⟩ [] (by decide)
    (by decide)

/-! ## Claim C7 -/

/-- C7: in every completed analysis, of either pipeline variant, the
capability indices satisfy Cpk = min(Cpu, Cpl) and Ppk = min(Ppu, Ppl)
exactly, at full precision. -/
theorem claim_C7 :
    (∀ (input : List InspectionData) (s : ℤ) (r : spcUtils.AnalysisResult),
      spcUtils.calculateAnalysisData input s = Except.ok r →
        r.cpk = min r.cpu r.cpl ∧ r.ppk = min r.ppu r.ppl) ∧
    (∀ (input : List InspectionData) (r : spcAnalysis.AnalysisB),
      spcAnalysis.analyzeData input = Except.ok r →
        r.cpk = min r.cpu r.cpl ∧ r.ppk = min r.ppu r.ppl) := by
  constructor
  · intro input s r h
    obtain ⟨d0, rest, sd, hv, _, _, _, hsd, hr⟩ := calc_ok_elim h
    subst hr
    exact ⟨rfl, rfl⟩
  · intro input r h
    unfold spcAnalysis.analyzeData at h
    split at h
    · exact absurd h (by simp)
    split at h
    · exact absurd h (by simp)
    next d0 rest hv =>
    split at h
    · exact absurd h (by simp)
    next hl =>
    have hr := (Except.ok.injEq _ _).mp h.symm
    subst hr
    exact ⟨rfl, rfl⟩

/-- C7 witness: concrete completing run on `sampleBatch`. -/
theorem claim_C7_witness :
    ∃ r, spcUtils.calculateAnalysisData sampleBatch 1 = Except.ok r ∧
      r.cpk = min r.cpu r.cpl ∧ r.ppk = min r.ppu r.ppl :=
  ⟨spcUtils.analysisCore [1, 3] 1 0 10 1, sampleBatch_ok,
    claim_C7.1 sampleBatch 1 (spcUtils.analysisCore [1, 3] 1 0 10 1) sampleBatch_ok⟩

/-! ## Claim C9 -/

/-- C9: every completed analysis reports the eight capability metrics as
ratios over explicitly nonzero sigma divisors (the epsilon clamp), so in
the real-valued embedding — where inputs are parsed rational numbers and no
infinity can enter — each metric is a well-defined finite number and the
`isFinite` fallback to 0 of spcUtils.ts lines 353-360 never fires. -/
theorem claim_C9 (input : List InspectionData) (s : ℤ) (r : spcUtils.AnalysisResult)
    (h : spcUtils.calculateAnalysisData input s = Except.ok r) :
    ∃ dWithin dOverall : ℝ, dWithin ≠ 0 ∧ dOverall ≠ 0 ∧
      r.cp = ((r.usl : ℝ) - (r.lsl : ℝ)) / (6 * dWithin) ∧
      r.cpu = ((r.usl : ℝ) - (r.grandMean : ℝ)) / (3 * dWithin) ∧
      r.cpl = ((r.grandMean : ℝ) - (r.lsl : ℝ)) / (3 * dWithin) ∧
      r.cpk = min r.cpu r.cpl ∧
      r.pp = ((r.usl : ℝ) - (r.lsl : ℝ)) / (6 * dOverall) ∧
      r.ppu = ((r.usl : ℝ) - (r.grandMean : ℝ)) / (3 * dOverall) ∧
      r.ppl = ((r.grandMean : ℝ) - (r.lsl : ℝ)) / (3 * dOverall) ∧
      r.ppk = min r.ppu r.ppl := by
  obtain ⟨d0, rest, sd, hv, _, _, _, hsd, hr⟩ := calc_ok_elim h
  subst hr
  exact ⟨spcUtils.safeSigma (spcUtils.withinStdDevOf (spcUtils.measurementsOf input)
      s.toNat sd), spcUtils.safeSigma sd,
    safeSigma_ne_zero _, safeSigma_ne_zero _,
    rfl, rfl, rfl, rfl, rfl, rfl, rfl, rfl⟩

/-- C9 witness: the divisor decomposition at the concrete completing run. -/
theorem claim_C9_witness :
    ∃ dWithin dOverall : ℝ, dWithin ≠ 0 ∧ dOverall ≠ 0 ∧
      (spcUtils.analysisCore [1, 3] 1 0 10 1).cp =
        (((spcUtils.analysisCore [1, 3] 1 0 10 1).usl : ℝ) -
          ((spcUtils.analysisCore [1, 3] 1 0 10 1).lsl : ℝ)) / (6 * dWithin) ∧
      (spcUtils.analysisCore [1, 3] 1 0 10 1).cpu =
        (((spcUtils.analysisCore [1, 3] 1 0 10 1).usl : ℝ) -
          ((spcUtils.analysisCore [1, 3] 1 0 10 1).grandMean : ℝ)) / (3 * dWithin) ∧
      (spcUtils.analysisCore [1, 3] 1 0 10 1).cpl =
        (((spcUtils.analysisCore [1, 3] 1 0 10 1).grandMean : ℝ) -
          ((spcUtils.analysisCore [1, 3] 1 0 10 1).lsl : ℝ)) / (3 * dWithin) ∧
      (spcUtils.analysisCore [1, 3] 1 0 10 1).cpk =
        min (spcUtils.analysisCore [1, 3] 1 0 10 1).cpu
          (spcUtils.analysisCore [1, 3] 1 0 10 1).cpl ∧
      (spcUtils.analysisCore [1, 3] 1 0 10 1).pp =
        (((spcUtils.analysisCore [1, 3] 1 0 10 1).usl : ℝ) -
          ((spcUtils.analysisCore [1, 3] 1 0 10 1).lsl : ℝ)) / (6 * dOverall) ∧
      (spcUtils.analysisCore [1, 3] 1 0 10 1).ppu =
        (((spcUtils.analysisCore [1, 3] 1 0 10 1).usl : ℝ) -
          ((spcUtils.analysisCore [1, 3] 1 0 10 1).grandMean : ℝ)) / (3 * dOverall) ∧
      (spcUtils.analysisCore [1, 3] 1 0 10 1).ppl =
        (((spcUtils.analysisCore [1, 3] 1 0 10 1).grandMean : ℝ) -
          ((spcUtils.analysisCore [1, 3] 1 0 10 1).lsl : ℝ)) / (3 * dOverall) ∧
      (spcUtils.analysisCore [1, 3] 1 0 10 1).ppk =
        min (spcUtils.analysisCore [1, 3] 1 0 10 1).ppu
          (spcUtils.analysisCore [1, 3] 1 0 10 1).ppl :=
  claim_C9 sampleBatch 1 (spcUtils.analysisCore [1, 3] 1 0 10 1) sampleBatch_ok

/-! ## Claim C1 -/

/-- C1 counterexample: on the two measurements [0, 2], `calculateStdDev`
(spcUtils.ts) returns 1 = sqrt(2/2), the population value, not the sample
standard deviation sqrt(2/1) = sqrt 2; and a batch with a single valid
measurement (N = 1 < 2) analysed at sample size 1 completes instead of
failing: no DegenerateSampleError exists in the code. -/
theorem claim_C1_counterexample :
    spcUtils.calculateStdDev [0, 2] (spcUtils.calculateMean [0, 2]) = some 1 ∧
    sampleStdDev [0, 2] = Real.sqrt 2 ∧
    (1 : ℝ) ≠ Real.sqrt 2 ∧
    (spcUtils.calculateAnalysisData [⟨some 5, some 0, some 10⟩] 1).isOk = true := by
  refine ⟨?_, ?_, ?_, ?_⟩
  · norm_num [spcUtils.calculateStdDev, spcUtils.calculateMean, Option.orElse,
      List.cons_ne_nil, Real.sqrt_one, Rat.cast_one]
  · norm_num [sampleStdDev]
  · have h1 : Real.sqrt 1 < Real.sqrt 2 := by
      apply Real.sqrt_lt_sqrt <;> norm_num
    rw [Real.sqrt_one] at h1
    exact ne_of_lt h1
  · have hm : spcUtils.measurementsOf [⟨some 5, some 0, some 10⟩] = [5] := by rfl
    have hv : spcUtils.validDataOf [⟨some 5, some 0, some 10⟩] =
        [⟨some 5, some 0, some 10⟩] := by rfl
    unfold spcUtils.calculateAnalysisData
    rw [hm, hv]
    norm_num [spcUtils.calculateStdDev, spcUtils.calculateMean, Option.orElse,
      List.cons_ne_nil, Except.isOk, Except.toBool]

/-- C1 amended: the overall standard deviation used for the Pp family in
`calculateAnalysisData` is the POPULATION standard deviation — the square
root of the sum of squared deviations divided by N (spcUtils.ts line 35
takes the plain mean of the squared deviations); the `analyzeData` variant
(spcAnalysis.ts lines 122-124) is the one using the sample divisor N − 1.
No analysis path raises a DegenerateSampleError for N < 2: a batch with one
valid measurement at sample size 1 completes (with sigma 0, clamped). -/
theorem claim_C1 :
    (∀ data : List ℚ, data ≠ [] →
      spcUtils.calculateStdDev data (spcUtils.calculateMean data) =
        some (Real.sqrt ((popVariance data : ℚ) : ℝ))) ∧
    (∀ ms : List ℚ, spcAnalysis.stdDevB ms = sampleStdDev ms) ∧
    (spcUtils.calculateAnalysisData [⟨some 5, some 0, some 10⟩] 1).isOk = true := by
  refine ⟨?_, fun ms => rfl, ?_⟩
  · intro data hne
    simp [spcUtils.calculateStdDev, spcUtils.calculateMean, hne, popVariance,
      Option.orElse, List.map_eq_nil_iff]
  · have hm : spcUtils.measurementsOf [⟨some 5, some 0, some 10⟩] = [5] := by rfl
    have hv : spcUtils.validDataOf [⟨some 5, some 0, some 10⟩] =
        [⟨some 5, some 0, some 10⟩] := by rfl
    unfold spcUtils.calculateAnalysisData
    rw [hm, hv]
    norm_num [spcUtils.calculateStdDev, spcUtils.calculateMean, Option.orElse,
      List.cons_ne_nil, Except.isOk, Except.toBool]

/-- C1 witness: the population-divisor formula at the concrete input
[0, 2]. -/
theorem claim_C1_witness :
    spcUtils.calculateStdDev [0, 2] (spcUtils.calculateMean [0, 2]) =
      some (Real.sqrt ((popVariance [0, 2] : ℚ) : ℝ)) :=
  claim_C1.1 [0, 2] (by decide)

/-! ## Chunking lemmas for Claim C4 -/

/-- The sizes of the chunks of a list are determined by its length. -/
theorem chunksOf_map_length (n : ℕ) (hn : n ≠ 0) :
    ∀ l : List ℚ, (chunksOf n l).map List.length = natChunks n l.length := by
  suffices H : ∀ (m : ℕ) (l : List ℚ), l.length = m →
      (chunksOf n l).map List.length = natChunks n l.length from
    fun l => H l.length l rfl
  intro m
  induction m using Nat.strong_induction_on with
  | _ m ih =>
    intro l hm
    subst hm
    rw [chunksOf, natChunks]
    rcases eq_or_ne l [] with rfl | hl
    · simp
    · have hl0 : l.length ≠ 0 := by simpa [List.length_eq_zero] using hl
      rw [dif_neg (by push_neg; exact ⟨hn, hl⟩), dif_neg (by push_neg; exact ⟨hn, hl0⟩)]
      simp only [List.map_cons, List.length_take]
      rw [ih ((l.drop n).length) (by
        simp only [List.length_drop]
        exact Nat.sub_lt (List.length_pos.mpr hl) (Nat.pos_of_ne_zero hn)) (l.drop n) rfl]
      simp [List.length_drop]

/-- The chunks concatenate back to the input: chunking is a partition into
consecutive slices. -/
theorem chunksOf_flatten (n : ℕ) (hn : n ≠ 0) :
    ∀ l : List ℚ, (chunksOf n l).flatten = l := by
  suffices H : ∀ (m : ℕ) (l : List ℚ), l.length = m → (chunksOf n l).flatten = l from
    fun l => H l.length l rfl
  intro m
  induction m using Nat.strong_induction_on with
  | _ m ih =>
    intro l hm
    subst hm
    rw [chunksOf]
    rcases eq_or_ne l [] with rfl | hl
    · simp
    · rw [dif_neg (by push_neg; exact ⟨hn, hl⟩)]
      rw [List.flatten_cons, ih ((l.drop n).length) (by
        simp only [List.length_drop]
        exact Nat.sub_lt (List.length_pos.mpr hl) (Nat.pos_of_ne_zero hn)) (l.drop n) rfl]
      exact List.take_append_drop n l

/-- Every chunk is non-empty and no longer than `n`. -/
theorem chunksOf_mem (n : ℕ) (hn : n ≠ 0) :
    ∀ l : List ℚ, ∀ c ∈ chunksOf n l, c ≠ [] ∧ c.length ≤ n := by
  suffices H : ∀ (m : ℕ) (l : List ℚ), l.length = m →
      ∀ c ∈ chunksOf n l, c ≠ [] ∧ c.length ≤ n from
    fun l => H l.length l rfl
  intro m
  induction m using Nat.strong_induction_on with
  | _ m ih =>
    intro l hm
    subst hm
    rw [chunksOf]
    rcases eq_or_ne l [] with rfl | hl
    · simp
    · rw [dif_neg (by push_neg; exact ⟨hn, hl⟩)]
      intro c hc
      rcases List.mem_cons.mp hc with rfl | hc
      · constructor
        · simp only [ne_eq, List.take_eq_nil_iff]
          push_neg
          exact ⟨hn, hl⟩
        · simp [List.length_take]
      · exact ih ((l.drop n).length) (by
          simp only [List.length_drop]
          exact Nat.sub_lt (List.length_pos.mpr hl) (Nat.pos_of_ne_zero hn)) (l.drop n) rfl c hc

/-- The X-bar loop is the map of the chunk means over the chunks. -/
theorem xBarLoop_eq_chunks (n : ℕ) (hn : n ≠ 0) :
    ∀ l : List ℚ, spcUtils.xBarLoop n l =
      (chunksOf n l).map (fun c => c.sum / (c.length : ℚ)) := by
  suffices H : ∀ (m : ℕ) (l : List ℚ), l.length = m → spcUtils.xBarLoop n l =
      (chunksOf n l).map (fun c => c.sum / (c.length : ℚ)) from
    fun l => H l.length l rfl
  intro m
  induction m using Nat.strong_induction_on with
  | _ m ih =>
    intro l hm
    subst hm
    rw [spcUtils.xBarLoop, chunksOf]
    rcases eq_or_ne l [] with rfl | hl
    · simp
    · rw [dif_neg (by push_neg; exact ⟨hn, hl⟩), dif_neg (by push_neg; exact ⟨hn, hl⟩)]
      rw [List.map_cons, ih ((l.drop n).length) (by
        simp only [List.length_drop]
        exact Nat.sub_lt (List.length_pos.mpr hl) (Nat.pos_of_ne_zero hn)) (l.drop n) rfl]

/-- The ranges loop is the map of max − min over the chunks having at least
two members; shorter chunks are skipped, not zero-filled. -/
theorem rangesLoop_eq_chunks (n : ℕ) (hn : n ≠ 0) :
    ∀ l : List ℚ, spcUtils.rangesLoop n l =
      ((chunksOf n l).filter (fun c => decide (2 ≤ c.length))).map
        (fun c => spcUtils.listMax c - spcUtils.listMin c) := by
  suffices H : ∀ (m : ℕ) (l : List ℚ), l.length = m → spcUtils.rangesLoop n l =
      ((chunksOf n l).filter (fun c => decide (2 ≤ c.length))).map
        (fun c => spcUtils.listMax c - spcUtils.listMin c) from
    fun l => H l.length l rfl
  intro m
  induction m using Nat.strong_induction_on with
  | _ m ih =>
    intro l hm
    subst hm
    rw [spcUtils.rangesLoop, chunksOf]
    rcases eq_or_ne l [] with rfl | hl
    · simp
    · rw [dif_neg (by push_neg; exact ⟨hn, hl⟩), dif_neg (by push_neg; exact ⟨hn, hl⟩)]
      have hrec := ih ((l.drop n).length) (by
        simp only [List.length_drop]
        exact Nat.sub_lt (List.length_pos.mpr hl) (Nat.pos_of_ne_zero hn)) (l.drop n) rfl
      rw [List.filter_cons]
      rcases le_or_lt 2 (l.take n).length with h2 | h2
      · rw [if_pos h2, if_pos (by simpa using h2), List.map_cons, hrec]
      · rw [if_neg (by omega), if_neg (by simpa using Nat.not_le.mpr h2), hrec]

/-! ## Claim C4 -/

/-- C4: for sample sizes n ≥ 2 the Subgrouper partitions the measurements
into consecutive chunks of size n (last possibly shorter): the chunks
flatten back to the input, every chunk is non-empty of size ≤ n, the mean
sequence is the chunk means (an incomplete trailing chunk included), and
the range sequence is max − min of exactly the chunks with ≥ 2 members (a
size-1 trailing chunk is skipped, not zero-filled).  In particular, n = 5
on 12 measurements yields chunks of sizes 5, 5, 2, hence 3 means and 3
ranges, while on 11 measurements the trailing size-1 chunk contributes a
mean but no range (3 means, 2 ranges). -/
theorem claim_C4 :
    (∀ (ms : List ℚ) (n : ℕ), 2 ≤ n →
      (chunksOf n ms).flatten = ms ∧
      (∀ c ∈ chunksOf n ms, c ≠ [] ∧ c.length ≤ n) ∧
      spcUtils.calculateSubgroupXBar ms n =
        (chunksOf n ms).map (fun c => c.sum / (c.length : ℚ)) ∧
      spcUtils.calculateSubgroupRanges ms n =
        ((chunksOf n ms).filter (fun c => decide (2 ≤ c.length))).map
          (fun c => spcUtils.listMax c - spcUtils.listMin c)) ∧
    (∀ ms : List ℚ, ms.length = 12 →
      (chunksOf 5 ms).map List.length = [5, 5, 2] ∧
      (spcUtils.calculateSubgroupXBar ms 5).length = 3 ∧
      (spcUtils.calculateSubgroupRanges ms 5).length = 3) ∧
    (∀ ms : List ℚ, ms.length = 11 →
      (spcUtils.calculateSubgroupXBar ms 5).length = 3 ∧
      (spcUtils.calculateSubgroupRanges ms 5).length = 2) := by
  have hxbar : ∀ (ms : List ℚ) (n : ℕ), 2 ≤ n → spcUtils.calculateSubgroupXBar ms n =
      (chunksOf n ms).map (fun c => c.sum / (c.length : ℚ)) := by
    intro ms n hn
    rw [spcUtils.calculateSubgroupXBar, if_neg (by omega)]
    exact xBarLoop_eq_chunks n (by omega) ms
  have hranges : ∀ (ms : List ℚ) (n : ℕ), 2 ≤ n → spcUtils.calculateSubgroupRanges ms n =
      ((chunksOf n ms).filter (fun c => decide (2 ≤ c.length))).map
        (fun c => spcUtils.listMax c - spcUtils.listMin c) := by
    intro ms n hn
    rw [spcUtils.calculateSubgroupRanges, if_neg (by omega)]
    exact rangesLoop_eq_chunks n (by omega) ms
  have hrangeLen : ∀ (ms : List ℚ) (n : ℕ), 2 ≤ n →
      (spcUtils.calculateSubgroupRanges ms n).length =
        ((natChunks n ms.length).filter (fun k => decide (2 ≤ k))).length := by
    intro ms n hn
    rw [hranges ms n hn, List.length_map, ← List.countP_eq_length_filter,
      ← List.countP_eq_length_filter, ← chunksOf_map_length n (by omega) ms,
      List.countP_map]
    rfl
  have e1 : ∀ m : ℕ, m ≠ 0 → natChunks 5 m = min 5 m :: natChunks 5 (m - 5) := by
    intro m hm
    rw [natChunks, dif_neg (by push_neg; exact ⟨by norm_num, hm⟩)]
  have h0 : natChunks 5 0 = [] := by rw [natChunks, dif_pos (Or.inr rfl)]
  have h12 : natChunks 5 12 = [5, 5, 2] := by
    rw [e1 12 (by norm_num), e1 7 (by norm_num), e1 2 (by norm_num)]
    norm_num [h0]
  have h11 : natChunks 5 11 = [5, 5, 1] := by
    rw [e1 11 (by norm_num), e1 6 (by norm_num), e1 1 (by norm_num)]
    norm_num [h0]
  refine ⟨fun ms n hn => ⟨chunksOf_flatten n (by omega) ms, chunksOf_mem n (by omega) ms,
    hxbar ms n hn, hranges ms n hn⟩, ?_, ?_⟩
  · intro ms hms
    have hmap : (chunksOf 5 ms).map List.length = [5, 5, 2] := by
      rw [chunksOf_map_length 5 (by omega) ms, hms, h12]
    refine ⟨hmap, ?_, ?_⟩
    · rw [hxbar ms 5 (by omega), List.length_map, ← List.length_map (chunksOf 5 ms)
        List.length, hmap]
      rfl
    · rw [hrangeLen ms 5 (by omega), hms, h12]
      decide
  · intro ms hms
    constructor
    · rw [hxbar ms 5 (by omega), List.length_map, ← List.length_map (chunksOf 5 ms)
        List.length, chunksOf_map_length 5 (by omega) ms, hms, h11]
      rfl
    · rw [hrangeLen ms 5 (by omega), hms, h11]
      decide

/-- C4 witness: the concrete 12- and 11-measurement sequences. -/
theorem claim_C4_witness :
    (chunksOf 5 [1, 2, 3, 4, 5, 6, 7, 8, 9, 10, 11, 12]).flatten =
      [1, 2, 3, 4, 5, 6, 7, 8, 9, 10, 11, 12] ∧
    (chunksOf 5 [1, 2, 3, 4, 5, 6, 7, 8, 9, 10, 11, 12]).map List.length = [5, 5, 2] ∧
    (spcUtils.calculateSubgroupXBar [1, 2, 3, 4, 5, 6, 7, 8, 9, 10, 11, 12] 5).length = 3 ∧
    (spcUtils.calculateSubgroupRanges [1, 2, 3, 4, 5, 6, 7, 8, 9, 10, 11, 12] 5).length = 3 ∧
    (spcUtils.calculateSubgroupXBar [1, 2, 3, 4, 5, 6, 7, 8, 9, 10, 11] 5).length = 3 ∧
    (spcUtils.calculateSubgroupRanges [1, 2, 3, 4, 5, 6, 7, 8, 9, 10, 11] 5).length = 2 :=
  ⟨(claim_C4.1 [1, 2, 3, 4, 5, 6, 7, 8, 9, 10, 11, 12] 5 (by norm_num)).1,
    (claim_C4.2.1 [1, 2, 3, 4, 5, 6, 7, 8, 9, 10, 11, 12] (by decide)).1,
    (claim_C4.2.1 [1, 2, 3, 4, 5, 6, 7, 8, 9, 10, 11, 12] (by decide)).2.1,
    (claim_C4.2.1 [1, 2, 3, 4, 5, 6, 7, 8, 9, 10, 11, 12] (by decide)).2.2,
    (claim_C4.2.2 [1, 2, 3, 4, 5, 6, 7, 8, 9, 10, 11] (by decide)).1,
    (claim_C4.2.2 [1, 2, 3, 4, 5, 6, 7, 8, 9, 10, 11] (by decide)).2⟩

/-! ## Trend-detection lemmas for Claim C5 -/

/-- The window flag of `detectTrends` holds iff the 7 points from offset `i`
are strictly increasing. -/
theorem trendIncAt_iff (l : List (ℚ × ℚ)) (i : ℕ) :
    SPCPattern.trendIncAt l i = true ↔ strictIncRun l i 7 := by
  simp only [SPCPattern.trendIncAt, decide_eq_true_eq, List.mem_range, strictIncRun]
  constructor
  · intro H j hj
    have hx := H (j + 1) (by omega) (by omega)
    have e1 : i + (j + 1) - 1 = i + j := by omega
    have e2 : i + (j + 1) = i + j + 1 := by omega
    rw [e1, e2] at hx
    exact hx
  · intro H j hjlt hj1
    have hx := H (j - 1) (by omega)
    rw [show i + (j - 1) = i + j - 1 from by omega] at hx
    rw [show i + j - 1 + 1 = i + j from by omega] at hx
    exact hx

/-- The window flag of `detectTrends` holds iff the 7 points from offset `i`
are strictly decreasing. -/
theorem trendDecAt_iff (l : List (ℚ × ℚ)) (i : ℕ) :
    SPCPattern.trendDecAt l i = true ↔ strictDecRun l i 7 := by
  simp only [SPCPattern.trendDecAt, decide_eq_true_eq, List.mem_range, strictDecRun]
  constructor
  · intro H j hj
    have hx := H (j + 1) (by omega) (by omega)
    have e1 : i + (j + 1) - 1 = i + j := by omega
    have e2 : i + (j + 1) = i + j + 1 := by omega
    rw [e1, e2] at hx
    exact hx
  · intro H j hjlt hj1
    have hx := H (j - 1) (by omega)
    rw [show i + (j - 1) = i + j - 1 from by omega] at hx
    rw [show i + j - 1 + 1 = i + j from by omega] at hx
    exact hx

/-- The detector fires iff some window of 7 consecutive points is strictly
monotone. -/
theorem detectTrends_detected_iff (l : List (ℚ × ℚ)) :
    (SPCPattern.detectTrends l).detected = true ↔
      ∃ i, i + 7 ≤ l.length ∧ (strictIncRun l i 7 ∨ strictDecRun l i 7) := by
  unfold SPCPattern.detectTrends
  cases hf : (List.range (l.length - 6)).find?
      (fun i => SPCPattern.trendIncAt l i || SPCPattern.trendDecAt l i) with
  | none =>
    constructor
    · intro h
      simp at h
    · rintro ⟨i, hlen, hmono⟩
      have hmem : i ∈ List.range (l.length - 6) := List.mem_range.mpr (by omega)
      have hnot := List.find?_eq_none.mp hf i hmem
      rw [Bool.or_eq_true] at hnot
      push_neg at hnot
      rcases hmono with hinc | hdec
      · exact absurd ((trendIncAt_iff l i).mpr hinc) hnot.1
      · exact absurd ((trendDecAt_iff l i).mpr hdec) hnot.2
  | some i =>
    have hp := List.find?_some hf
    have hmem := List.mem_range.mp (List.mem_of_find?_eq_some hf)
    constructor
    · intro _
      refine ⟨i, by omega, ?_⟩
      rcases (by simpa using hp :
          SPCPattern.trendIncAt l i = true ∨ SPCPattern.trendDecAt l i = true) with h | h
      · exact Or.inl ((trendIncAt_iff l i).mp h)
      · exact Or.inr ((trendDecAt_iff l i).mp h)
    · intro _
      rfl

/-- A run of at least 7 strictly monotone points exists iff a window of
exactly 7 does. -/
theorem hasTrendRun_iff (l : List (ℚ × ℚ)) :
    hasTrendRun l ↔ ∃ i, i + 7 ≤ l.length ∧ (strictIncRun l i 7 ∨ strictDecRun l i 7) := by
  constructor
  · rintro ⟨i, m, h7, hlen, hmono⟩
    refine ⟨i, by omega, ?_⟩
    rcases hmono with hinc | hdec
    · exact Or.inl (fun j hj => hinc j (by omega))
    · exact Or.inr (fun j hj => hdec j (by omega))
  · rintro ⟨i, hlen, hmono⟩
    exact ⟨i, 7, le_refl 7, hlen, hmono⟩

/-! ## Claim C5 -/

/-- C5: the Trend pattern is reported as detected iff the mean-chart
sequence contains a run of at least 7 consecutive points strictly
monotonically increasing or strictly monotonically decreasing (equal
neighbours break the run); on the literal sequence [1,…,7] the finding is
detected with pointIndices covering all 7 positions. -/
theorem claim_C5 :
    (∀ l : List (ℚ × ℚ), (SPCPattern.detectTrends l).detected = true ↔ hasTrendRun l) ∧
    SPCPattern.detectTrends [(1, 1), (2, 2), (3, 3), (4, 4), (5, 5), (6, 6), (7, 7)] =
      { detected := true, description := "7 or more consecutive points increasing",
        pointIndices := [1, 2, 3, 4, 5, 6, 7] } := by
  constructor
  · intro l
    rw [detectTrends_detected_iff, hasTrendRun_iff]
  · decide

/-! ## Histogram lemmas for Claim C2 -/

/-- A left fold with `min` is below its seed and every element. -/
theorem foldl_min_le (xs : List ℚ) :
    ∀ a : ℚ, xs.foldl min a ≤ a ∧ ∀ v ∈ xs, xs.foldl min a ≤ v := by
  induction xs with
  | nil => exact fun a => ⟨le_refl a, by simp⟩
  | cons x t ih =>
    intro a
    refine ⟨le_trans (ih (min a x)).1 (min_le_left a x), ?_⟩
    intro v hv
    rcases List.mem_cons.mp hv with rfl | hv
    · exact le_trans (ih (min a v)).1 (min_le_right a v)
    · exact (ih (min a x)).2 v hv

/-- A left fold with `max` is above its seed and every element. -/
theorem le_foldl_max (xs : List ℚ) :
    ∀ a : ℚ, a ≤ xs.foldl max a ∧ ∀ v ∈ xs, v ≤ xs.foldl max a := by
  induction xs with
  | nil => exact fun a => ⟨le_refl a, by simp⟩
  | cons x t ih =>
    intro a
    refine ⟨le_trans (le_max_left a x) (ih (max a x)).1, ?_⟩
    intro v hv
    rcases List.mem_cons.mp hv with rfl | hv
    · exact le_trans (le_max_right a v) (ih (max a v)).1
    · exact (ih (max a x)).2 v hv

/-- `Math.min(...data)` is a lower bound of the data. -/
theorem listMin_le (l : List ℚ) (v : ℚ) (hv : v ∈ l) : spcUtils.listMin l ≤ v := by
  cases l with
  | nil => cases hv
  | cons x t =>
    rcases List.mem_cons.mp hv with rfl | hv
    · exact (foldl_min_le t v).1
    · exact (foldl_min_le t x).2 v hv

/-- `Math.max(...data)` is an upper bound of the data. -/
theorem le_listMax (l : List ℚ) (v : ℚ) (hv : v ∈ l) : v ≤ spcUtils.listMax l := by
  cases l with
  | nil => cases hv
  | cons x t =>
    rcases List.mem_cons.mp hv with rfl | hv
    · exact (le_foldl_max t v).1
    · exact (le_foldl_max t x).2 v hv

/-- The bin count `ceil(sqrt N)` is positive for N ≥ 1. -/
theorem ceilSqrt_pos (n : ℕ) (hn : n ≠ 0) : 0 < spcUtils.ceilSqrt n := by
  unfold spcUtils.ceilSqrt
  split
  · next h =>
    rcases Nat.eq_zero_or_pos (Nat.sqrt n) with h0 | h0
    · rw [h0] at h
      simp at h
      exact absurd h.symm hn
    · exact h0
  · omega

/-- The per-measurement indicator sums to 0 over bins left of its bin. -/
theorem indicator_sum_zero (f : ℚ → Option ℕ) (v : ℚ) (j0 : ℕ) (hj : f v = some j0) :
    ∀ bc : ℕ, bc ≤ j0 →
      ((List.range bc).map (fun j => if f v = some j then 1 else 0)).sum = 0 := by
  intro bc
  induction bc with
  | zero => intro _; simp
  | succ k ih =>
    intro hbc
    rw [List.range_succ, List.map_append, List.sum_append, ih (by omega)]
    have hne : ¬ f v = some k := by
      rw [hj]
      simp only [Option.some.injEq]
      omega
    simp [hne]

/-- The per-measurement indicator sums to 1 over all bins once its bin is in
range: each measurement is counted exactly once. -/
theorem indicator_sum_one (f : ℚ → Option ℕ) (v : ℚ) (j0 : ℕ) (hj : f v = some j0) :
    ∀ bc : ℕ, j0 < bc →
      ((List.range bc).map (fun j => if f v = some j then 1 else 0)).sum = 1 := by
  intro bc
  induction bc with
  | zero => omega
  | succ k ih =>
    intro hbc
    rw [List.range_succ, List.map_append, List.sum_append]
    rcases eq_or_lt_of_le (Nat.lt_succ_iff.mp hbc) with rfl | hlt
    · rw [indicator_sum_zero f v j0 hj j0 (le_refl j0)]
      simp [hj]
    · rw [ih hlt]
      have hne : ¬ f v = some k := by
        rw [hj]
        simp only [Option.some.injEq]
        omega
      simp [hne]

/-- When every measurement is assigned to some in-range bin, the bin counts
sum to the number of measurements. -/
theorem sum_counts (f : ℚ → Option ℕ) (bc : ℕ) :
    ∀ data : List ℚ, (∀ v ∈ data, ∃ j, f v = some j ∧ j < bc) →
      ((List.range bc).map
        (fun j => (data.filter (fun v => decide (f v = some j))).length)).sum
        = data.length := by
  intro data
  induction data with
  | nil => intro _; simp
  | cons v rest ih =>
    intro hf
    obtain ⟨j0, hj0, hjlt⟩ := hf v (List.mem_cons_self v rest)
    have hsplit : (fun j => ((v :: rest).filter (fun w => decide (f w = some j))).length) =
        fun j => (if f v = some j then 1 else 0) +
          (rest.filter (fun w => decide (f w = some j))).length := by
      funext j
      rw [List.filter_cons]
      by_cases hc : f v = some j
      · simp [hc]
        omega
      · simp [hc]
    rw [hsplit, List.sum_map_add, indicator_sum_one f v j0 hj0 bc hjlt,
      ih (fun w hw => hf w (List.mem_cons_of_mem v hw))]
    simp [Nat.add_comm]

/-- Every measurement gets an in-range bin index when the first bin is
anchored at the data minimum (the `lsl ≥ min` case). -/
theorem binAssign_total (data : List ℚ) (hne : data ≠ []) (v : ℚ) (hv : v ∈ data) :
    ∃ j, spcUtils.binAssign (spcUtils.listMax data) (spcUtils.listMin data)
      ((spcUtils.listMax data - spcUtils.listMin data) / (spcUtils.ceilSqrt data.length : ℚ))
      (spcUtils.ceilSqrt data.length) v = some j ∧ j < spcUtils.ceilSqrt data.length := by
  have hbc0 : 0 < spcUtils.ceilSqrt data.length :=
    ceilSqrt_pos data.length (by simpa [List.length_eq_zero] using hne)
  by_cases hvmx : v = spcUtils.listMax data
  · exact ⟨spcUtils.ceilSqrt data.length - 1,
      by rw [spcUtils.binAssign, if_pos hvmx], by omega⟩
  · have hvlt : v < spcUtils.listMax data :=
      lt_of_le_of_ne (le_listMax data v hv) hvmx
    have hmn : spcUtils.listMin data ≤ v := listMin_le data v hv
    have hwpos : 0 < (spcUtils.listMax data - spcUtils.listMin data) /
        (spcUtils.ceilSqrt data.length : ℚ) := by
      apply div_pos (by linarith) (by exact_mod_cast hbc0)
    have hnum : (0 : ℚ) ≤ (v - spcUtils.listMin data) /
        ((spcUtils.listMax data - spcUtils.listMin data) /
          (spcUtils.ceilSqrt data.length : ℚ)) :=
      div_nonneg (by linarith) (le_of_lt hwpos)
    have hlt : (v - spcUtils.listMin data) /
        ((spcUtils.listMax data - spcUtils.listMin data) /
          (spcUtils.ceilSqrt data.length : ℚ)) < (spcUtils.ceilSqrt data.length : ℚ) := by
      rw [div_lt_iff₀ hwpos]
      have hbne : (spcUtils.ceilSqrt data.length : ℚ) ≠ 0 := by exact_mod_cast hbc0.ne'
      have hmul : (spcUtils.ceilSqrt data.length : ℚ) *
          ((spcUtils.listMax data - spcUtils.listMin data) /
            (spcUtils.ceilSqrt data.length : ℚ)) =
          spcUtils.listMax data - spcUtils.listMin data := by
        field_simp
      rw [hmul]
      linarith
    have hfl0 : 0 ≤ Int.floor ((v - spcUtils.listMin data) /
        ((spcUtils.listMax data - spcUtils.listMin data) /
          (spcUtils.ceilSqrt data.length : ℚ))) := Int.floor_nonneg.mpr hnum
    have hflt : Int.floor ((v - spcUtils.listMin data) /
        ((spcUtils.listMax data - spcUtils.listMin data) /
          (spcUtils.ceilSqrt data.length : ℚ))) < (spcUtils.ceilSqrt data.length : ℤ) := by
      rw [Int.floor_lt]
      push_cast
      exact hlt
    refine ⟨(Int.floor ((v - spcUtils.listMin data) /
        ((spcUtils.listMax data - spcUtils.listMin data) /
          (spcUtils.ceilSqrt data.length : ℚ)))).toNat, ?_, ?_⟩
    · rw [spcUtils.binAssign, if_neg hvmx, if_pos ⟨hfl0, hflt⟩]
    · rw [← Int.toNat_lt' hbc0.ne'] at hflt
      exact hflt

/-! ## Claim C2 -/

/-- C2 counterexample: for the measurements [10, 15, 20] with (valid)
lsl = 0 < min, the bin frequencies sum to 1, not N = 3.  The first bin is
anchored at lsl = 0 while the bins only span `max − min`, so 10 and 15 get
bin index ≥ binCount and are silently dropped — not clamped into
[0, binCount − 1] as the claim states. -/
theorem claim_C2_counterexample :
    spcUtils.sumFreqs (spcUtils.calculateDistributionData [10, 15, 20] 0 100) = some 1 ∧
    ([10, 15, 20] : List ℚ).length = 3 ∧ (1 : ℕ) ≠ 3 := by
  refine ⟨?_, by decide, by decide⟩
  have hmax : spcUtils.listMax [10, 15, 20] = 20 := by decide
  have hmin : spcUtils.listMin [10, 15, 20] = 10 := by decide
  have hbc : spcUtils.ceilSqrt ([10, 15, 20] : List ℚ).length = 2 := by
    norm_num [spcUtils.ceilSqrt]
  have h10 : spcUtils.binAssign 20 0 5 2 10 = none := by
    have e : ((10 : ℚ) - 0) / 5 = ((2 : ℤ) : ℚ) := by norm_num
    rw [spcUtils.binAssign, if_neg (by norm_num : ¬(10 : ℚ) = 20), e, Int.floor_intCast]
    norm_num
  have h15 : spcUtils.binAssign 20 0 5 2 15 = none := by
    have e : ((15 : ℚ) - 0) / 5 = ((3 : ℤ) : ℚ) := by norm_num
    rw [spcUtils.binAssign, if_neg (by norm_num : ¬(15 : ℚ) = 20), e, Int.floor_intCast]
    norm_num
  have h20 : spcUtils.binAssign 20 0 5 2 20 = some 1 := by
    rw [spcUtils.binAssign, if_pos rfl]
  have hw : (spcUtils.listMax [10, 15, 20] - spcUtils.listMin [10, 15, 20]) /
      (spcUtils.ceilSqrt ([10, 15, 20] : List ℚ).length : ℚ) = 5 := by
    rw [hmax, hmin, hbc]
    norm_num
  have hbs : min (spcUtils.listMin [10, 15, 20]) 0 = 0 := by rw [hmin]; norm_num
  simp only [spcUtils.calculateDistributionData, spcUtils.sumFreqs, Option.map_some',
    List.map_map, if_neg (by decide : ¬([10, 15, 20] : List ℚ) = [])]
  rw [hbs, hw, hmax, hbc]
  simp [List.range_succ, h10, h15, h20, List.filter]

/-- C2 amended: the bin-conservation property holds whenever the histogram
anchor coincides with the data minimum, i.e. when lsl ≥ min(measurements)
(this includes every batch whose lower spec limit is not below the smallest
reading): then every measurement lands in exactly one bin and the
frequencies sum to N.  When lsl < min, the anchor `min(min, lsl) = lsl`
shifts the finite bin span `[lsl, lsl + (max − min)]` below the data, and
non-maximal measurements above that span get index ≥ binCount and are
dropped (the code bounds-checks instead of clamping), so the sum can fall
short of N. -/
theorem claim_C2 (data : List ℚ) (lsl usl : ℚ) (hne : data ≠ [])
    (hlsl : spcUtils.listMin data ≤ lsl) :
    spcUtils.sumFreqs (spcUtils.calculateDistributionData data lsl usl) =
      some data.length := by
  have hbs : min (spcUtils.listMin data) lsl = spcUtils.listMin data := min_eq_left hlsl
  simp only [spcUtils.calculateDistributionData, spcUtils.sumFreqs, if_neg hne,
    Option.map_some', List.map_map, hbs]
  congr 1
  exact sum_counts _ (spcUtils.ceilSqrt data.length) data (binAssign_total data hne)

/-- C2 witness: [10, 15, 20] with lsl = 10 = min conserves all 3
measurements. -/
theorem claim_C2_witness :
    spcUtils.sumFreqs (spcUtils.calculateDistributionData [10, 15, 20] 10 100) =
      some ([10, 15, 20] : List ℚ).length :=
  claim_C2 [10, 15, 20] 10 100 (by decide) (by decide)

/-! ## Replicate lemmas for Claim C6 -/

/-- Mean of n copies of v is v. -/
theorem calculateMean_replicate (v : ℚ) (n : ℕ) (hn : n ≠ 0) :
    spcUtils.calculateMean (List.replicate n v) = some v := by
  rw [spcUtils.calculateMean, if_neg (by simp [hn])]
  congr 1
  rw [List.sum_replicate, List.length_replicate, nsmul_eq_mul]
  exact mul_div_cancel_left₀ v (by exact_mod_cast hn)

/-- Pairwise fold over constant lists. -/
theorem zipWith_replicate_pair {α β : Type} (f : α → α → β) (a : α) :
    ∀ m, List.zipWith f (List.replicate (m + 1) a) (List.replicate m a) =
      List.replicate m (f a a) := by
  intro m
  induction m with
  | zero => simp
  | succ k ih =>
    simp only [List.replicate_succ] at ih ⊢
    simp [ih]

/-- Moving ranges of identical values are all zero. -/
theorem ranges_replicate (v : ℚ) (m : ℕ) :
    spcUtils.calculateSubgroupRanges (List.replicate (m + 1) v) 1 = List.replicate m 0 := by
  rw [spcUtils.calculateSubgroupRanges, if_pos rfl]
  have ht : (List.replicate (m + 1) v).tail = List.replicate m v := by
    simp [List.replicate_succ]
  rw [ht, zipWith_replicate_pair (fun prev curr => |curr - prev|) v m]
  simp

/-- `calculateMean(replicate m 0) ?? 0` is 0 for every m (incl. the empty
series). -/
theorem mean_replicate_getD (m : ℕ) :
    (spcUtils.calculateMean (List.replicate m (0 : ℚ))).getD 0 = 0 := by
  cases m with
  | zero => rfl
  | succ k =>
    rw [calculateMean_replicate 0 (k + 1) (by omega)]
    rfl

/-- Sigma of n + 1 copies of v is exactly 0 (pre-clamp). -/
theorem stdDev_replicate (v : ℚ) (m : ℕ) :
    spcUtils.calculateStdDev (List.replicate (m + 1) v)
      (spcUtils.calculateMean (List.replicate (m + 1) v)) = some 0 := by
  have hmean := calculateMean_replicate v (m + 1) (by omega)
  have hrepne : (List.replicate (m + 1) v : List ℚ) ≠ [] := by simp
  rw [spcUtils.calculateStdDev, if_neg hrepne, hmean]
  simp only [Option.orElse, List.map_replicate, sub_self]
  norm_num
  rw [calculateMean_replicate 0 (m + 1) (by omega)]
  simp

/-! ## Claim C6 -/

/-- C6: a sigma divisor that is exactly 0 is replaced by the epsilon
1/1000000 (and a nonzero sigma is left alone, so the clamp never yields 0);
consequently, for subgroup size 1 on N ≥ 1 identical values the analysis
completes with all moving ranges 0, avgRange 0, range-chart UCL 0, both
mean-chart limits collapsed onto the grand mean (= the common value), sigma
0, and every capability output equal to a finite ratio over the epsilon. -/
theorem claim_C6 :
    (∀ x : ℝ, (x = 0 → spcUtils.safeSigma x = 1 / 1000000) ∧
      (x ≠ 0 → spcUtils.safeSigma x = x) ∧ spcUtils.safeSigma x ≠ 0) ∧
    (∀ (v lsl usl : ℚ) (N : ℕ), 1 ≤ N →
      ∃ r, spcUtils.calculateAnalysisData
          (List.replicate N (⟨some v, some lsl, some usl⟩ : InspectionData)) 1 =
            Except.ok r ∧
        r.rangeValues = List.replicate (N - 1) 0 ∧
        r.avgRange = 0 ∧
        r.rangeUcl = 0 ∧
        r.grandMean = v ∧
        r.xBarUcl = v ∧
        r.xBarLcl = v ∧
        r.stdDev = 0 ∧
        r.cp = (((usl : ℚ) : ℝ) - ((lsl : ℚ) : ℝ)) / (6 * (1 / 1000000)) ∧
        r.cpu = (((usl : ℚ) : ℝ) - ((v : ℚ) : ℝ)) / (3 * (1 / 1000000)) ∧
        r.cpl = (((v : ℚ) : ℝ) - ((lsl : ℚ) : ℝ)) / (3 * (1 / 1000000)) ∧
        r.cpk = min r.cpu r.cpl ∧
        r.pp = (((usl : ℚ) : ℝ) - ((lsl : ℚ) : ℝ)) / (6 * (1 / 1000000)) ∧
        r.ppu = (((usl : ℚ) : ℝ) - ((v : ℚ) : ℝ)) / (3 * (1 / 1000000)) ∧
        r.ppl = (((v : ℚ) : ℝ) - ((lsl : ℚ) : ℝ)) / (3 * (1 / 1000000)) ∧
        r.ppk = min r.ppu r.ppl) := by
  constructor
  · refine fun x => ⟨fun h => ?_, fun h => ?_, safeSigma_ne_zero x⟩
    · rw [spcUtils.safeSigma, if_pos h]
    · rw [spcUtils.safeSigma, if_neg h]
  · intro v lsl usl N hN
    obtain ⟨m, rfl⟩ : ∃ m, N = m + 1 := ⟨N - 1, by omega⟩
    have hvd : spcUtils.validDataOf
        (List.replicate (m + 1) (⟨some v, some lsl, some usl⟩ : InspectionData)) =
        List.replicate (m + 1) ⟨some v, some lsl, some usl⟩ := by
      apply List.filter_eq_self.mpr
      intro a ha
      rw [List.eq_of_mem_replicate ha]
      rfl
    have hms : spcUtils.measurementsOf
        (List.replicate (m + 1) (⟨some v, some lsl, some usl⟩ : InspectionData)) =
        List.replicate (m + 1) v := by
      rw [spcUtils.measurementsOf, hvd]
      induction m + 1 with
      | zero => rfl
      | succ k ih => simp [List.replicate_succ, List.filterMap_cons, ih]
    have hvd2 : spcUtils.validDataOf
        (List.replicate (m + 1) (⟨some v, some lsl, some usl⟩ : InspectionData)) =
        (⟨some v, some lsl, some usl⟩ : InspectionData) ::
          List.replicate m ⟨some v, some lsl, some usl⟩ := by
      rw [hvd, List.replicate_succ]
    have hok : spcUtils.calculateAnalysisData
        (List.replicate (m + 1) (⟨some v, some lsl, some usl⟩ : InspectionData)) 1 =
        Except.ok (spcUtils.analysisCore (List.replicate (m + 1) v) 0 lsl usl 1) := by
      unfold spcUtils.calculateAnalysisData
      rw [hms, hvd2]
      rw [if_neg (by norm_num), if_neg (by simp), stdDev_replicate v m]
      rfl
    have hwith : spcUtils.withinStdDevOf (List.replicate (m + 1) v) 1 0 = 0 := by
      rw [spcUtils.withinStdDevOf, if_pos (Or.inl rfl)]
    have hsafe : spcUtils.safeSigma 0 = 1 / 1000000 := by
      rw [spcUtils.safeSigma, if_pos rfl]
    have hgrand : spcUtils.grandMeanOf (List.replicate (m + 1) v) 1 = v := by
      rw [spcUtils.grandMeanOf, spcUtils.calculateSubgroupXBar, if_pos rfl,
        calculateMean_replicate v (m + 1) (by omega)]
      rfl
    have havg : spcUtils.avgRangeOf (List.replicate (m + 1) v) 1 = 0 := by
      rw [spcUtils.avgRangeOf, ranges_replicate v m, mean_replicate_getD m]
    refine ⟨spcUtils.analysisCore (List.replicate (m + 1) v) 0 lsl usl 1, hok,
      ?_, havg, ?_, hgrand, ?_, ?_, rfl, ?_, ?_, ?_, rfl, ?_, ?_, ?_, rfl⟩
    · show spcUtils.calculateSubgroupRanges (List.replicate (m + 1) v) 1 =
        List.replicate (m + 1 - 1) 0
      rw [ranges_replicate v m]
      norm_num
    · show spcUtils.rangeUclOf (List.replicate (m + 1) v) 1 = 0
      rw [spcUtils.rangeUclOf, havg, mul_zero]
    · show spcUtils.xBarUclOf (List.replicate (m + 1) v) 1 = v
      rw [spcUtils.xBarUclOf, hgrand, havg, mul_zero, add_zero]
    · show spcUtils.xBarLclOf (List.replicate (m + 1) v) 1 = v
      rw [spcUtils.xBarLclOf, hgrand, havg, mul_zero, sub_zero]
    · show ((usl : ℝ) - (lsl : ℝ)) /
          (6 * spcUtils.safeSigma (spcUtils.withinStdDevOf (List.replicate (m + 1) v) 1 0)) =
        ((usl : ℝ) - (lsl : ℝ)) / (6 * (1 / 1000000))
      rw [hwith, hsafe]
    · show ((usl : ℝ) - (spcUtils.grandMeanOf (List.replicate (m + 1) v) 1 : ℝ)) /
          (3 * spcUtils.safeSigma (spcUtils.withinStdDevOf (List.replicate (m + 1) v) 1 0)) =
        ((usl : ℝ) - (v : ℝ)) / (3 * (1 / 1000000))
      rw [hwith, hsafe, hgrand]
    · show ((spcUtils.grandMeanOf (List.replicate (m + 1) v) 1 : ℝ) - (lsl : ℝ)) /
          (3 * spcUtils.safeSigma (spcUtils.withinStdDevOf (List.replicate (m + 1) v) 1 0)) =
        ((v : ℝ) - (lsl : ℝ)) / (3 * (1 / 1000000))
      rw [hwith, hsafe, hgrand]
    · show ((usl : ℝ) - (lsl : ℝ)) / (6 * spcUtils.safeSigma 0) =
        ((usl : ℝ) - (lsl : ℝ)) / (6 * (1 / 1000000))
      rw [hsafe]
    · show ((usl : ℝ) - (spcUtils.grandMeanOf (List.replicate (m + 1) v) 1 : ℝ)) /
          (3 * spcUtils.safeSigma 0) = ((usl : ℝ) - (v : ℝ)) / (3 * (1 / 1000000))
      rw [hsafe, hgrand]
    · show ((spcUtils.grandMeanOf (List.replicate (m + 1) v) 1 : ℝ) - (lsl : ℝ)) /
          (3 * spcUtils.safeSigma 0) = ((v : ℝ) - (lsl : ℝ)) / (3 * (1 / 1000000))
      rw [hsafe, hgrand]

/-- C6 witness: three identical measurements 1 with limits (0, 2) at sample
size 1. -/
theorem claim_C6_witness :
    spcUtils.safeSigma 0 = 1 / 1000000 ∧
    ∃ r, spcUtils.calculateAnalysisData
        (List.replicate 3 (⟨some 1, some 0, some 2⟩ : InspectionData)) 1 = Except.ok r ∧
      r.rangeValues = List.replicate 2 0 ∧ r.avgRange = 0 ∧ r.rangeUcl = 0 ∧
      r.grandMean = 1 ∧ r.xBarUcl = 1 ∧ r.xBarLcl = 1 ∧
      r.cp = (((2 : ℚ) : ℝ) - ((0 : ℚ) : ℝ)) / (6 * (1 / 1000000)) := by
  obtain ⟨r, hok, hrv, hav, hru, hgm, hxu, hxl, hsd, hcp, -⟩ :=
    claim_C6.2 1 0 2 3 (by norm_num)
  exact ⟨(claim_C6.1 0).1 rfl, r, hok, hrv, hav, hru, hgm, hxu, hxl, hcp⟩

/-! ## Run lemmas for Claim C8 -/

/-- Counting prefix: `k` entries of the takeWhile prefix exist iff the first
`k` entries all satisfy `p`. -/
theorem takeWhile_length_ge (p : ℚ → Bool) :
    ∀ (xs : List ℚ) (k : ℕ), k ≤ (xs.takeWhile p).length ↔
      k ≤ xs.length ∧ ∀ x ∈ xs.take k, p x = true := by
  intro xs
  induction xs with
  | nil => intro k; simp
  | cons x t ih =>
    intro k
    cases k with
    | zero => simp
    | succ j =>
      rw [List.takeWhile_cons]
      by_cases hx : p x = true
      · rw [if_pos hx]
        constructor
        · intro hlen
          have hj : j ≤ (t.takeWhile p).length := by simpa using hlen
          obtain ⟨h1, h2⟩ := (ih j).mp hj
          refine ⟨by simpa using h1, ?_⟩
          intro y hy
          rw [List.take_succ_cons] at hy
          rcases List.mem_cons.mp hy with rfl | hy
          · exact hx
          · exact h2 y hy
        · rintro ⟨h1, h2⟩
          have hj : j ≤ t.length := by simpa using h1
          have h2x : ∀ y ∈ t.take j, p y = true := by
            intro y hy
            exact h2 y (by rw [List.take_succ_cons]; exact List.mem_cons_of_mem x hy)
          have := (ih j).mpr ⟨hj, h2x⟩
          simpa using this
      · rw [if_neg hx]
        constructor
        · intro hcon
          simp at hcon
        · rintro ⟨h1, h2⟩
          exact absurd (h2 x (by rw [List.take_succ_cons]; exact List.mem_cons_self x _)) hx

/-- The last `j` entries of `l` all satisfy `p` iff the takeWhile prefix of
the reversal has length at least `j`. -/
theorem suffix_all_iff (p : ℚ → Bool) (l : List ℚ) (j : ℕ) (hj : j ≤ l.length) :
    (∀ x ∈ l.drop (l.length - j), p x = true) ↔
      j ≤ (l.reverse.takeWhile p).length := by
  rw [takeWhile_length_ge p l.reverse j, List.length_reverse]
  have hmem : ∀ x : ℚ, x ∈ l.reverse.take j ↔ x ∈ l.drop (l.length - j) := by
    intro x
    have h1 : (l.reverse.take j).reverse = l.drop (l.length - j) := by
      rw [List.reverse_take, List.reverse_reverse, List.length_reverse]
    rw [← h1, List.mem_reverse]
  constructor
  · intro H
    exact ⟨hj, fun x hx => H x ((hmem x).mp hx)⟩
  · rintro ⟨-, H⟩ x hx
    exact H x ((hmem x).mpr hx)

/-- Unfolding the run fold over an appended element. -/
theorem runFold_append (p : ℚ → Bool) (l : List ℚ) (v : ℚ) :
    runFold p (l ++ [v]) =
      if p v then ((runFold p l).1 + 1, max (runFold p l).2 ((runFold p l).1 + 1))
      else (0, (runFold p l).2) := by
  simp only [runFold, List.foldl_append, List.foldl_cons, List.foldl_nil]

/-- The current-run counter of the fold is the length of the trailing
all-`p` run. -/
theorem runFold_fst (p : ℚ → Bool) :
    ∀ l : List ℚ, (runFold p l).1 = (l.reverse.takeWhile p).length := by
  intro l
  induction l using List.reverseRecOn with
  | nil => rfl
  | append_singleton l v ih =>
    rw [runFold_append]
    have hrev : (l ++ [v]).reverse = v :: l.reverse := by simp
    rw [hrev, List.takeWhile_cons]
    by_cases hv : p v = true
    · rw [if_pos hv, if_pos hv]
      simp [ih]
    · rw [if_neg hv, if_neg hv]
      rfl

/-- Splitting a window of an appended list: either it lies in the prefix or
it is the suffix ending at the new element. -/
theorem hasRun_append_iff (p : ℚ → Bool) (l : List ℚ) (v : ℚ) (k : ℕ) (hk : 1 ≤ k) :
    hasRun k p (l ++ [v]) ↔
      hasRun k p l ∨ (p v = true ∧ k - 1 ≤ (l.reverse.takeWhile p).length) := by
  constructor
  · rintro ⟨i, hik, hwin⟩
    rw [List.length_append, List.length_singleton] at hik
    rcases le_or_lt (i + k) l.length with hle | hgt
    · left
      refine ⟨i, hle, ?_⟩
      intro x hx
      apply hwin
      have hdrop : (l ++ [v]).drop i = l.drop i ++ [v] :=
        List.drop_append_of_le_length (by omega)
      rw [hdrop, List.take_append_of_le_length (by simp only [List.length_drop]; omega)]
      exact hx
    · right
      have hi : i = l.length + 1 - k := by omega
      have hdrop : (l ++ [v]).drop i = l.drop i ++ [v] :=
        List.drop_append_of_le_length (by omega)
      have hlen2 : (l.drop i).length = k - 1 := by simp only [List.length_drop]; omega
      have htake : ((l ++ [v]).drop i).take k = l.drop i ++ [v] := by
        rw [hdrop]
        apply List.take_of_length_le
        rw [List.length_append, List.length_singleton, hlen2]
        omega
      have hall : ∀ x ∈ l.drop i ++ [v], p x = true := by
        intro x hx
        apply hwin
        rw [htake]
        exact hx
      refine ⟨hall v (by simp), ?_⟩
      have hsuff : ∀ x ∈ l.drop (l.length - (k - 1)), p x = true := by
        intro x hx
        apply hall
        apply List.mem_append_left
        have he : l.length - (k - 1) = i := by omega
        rw [he] at hx
        exact hx
      exact (suffix_all_iff p l (k - 1) (by omega)).mp hsuff
  · rintro (⟨i, hik, hwin⟩ | ⟨hpv, hkw⟩)
    · refine ⟨i, by rw [List.length_append, List.length_singleton]; omega, ?_⟩
      intro x hx
      apply hwin
      have hdrop : (l ++ [v]).drop i = l.drop i ++ [v] :=
        List.drop_append_of_le_length (by omega)
      rw [hdrop, List.take_append_of_le_length
        (by simp only [List.length_drop]; omega)] at hx
      exact hx
    · have hkl : k - 1 ≤ l.length := by
        have hsub := (List.takeWhile_sublist p (l := l.reverse)).length_le
        have := le_trans hkw hsub
        simpa using this
      refine ⟨l.length - (k - 1), by rw [List.length_append, List.length_singleton]; omega, ?_⟩
      have hsuff := (suffix_all_iff p l (k - 1) hkl).mpr hkw
      intro x hx
      have hdrop : (l ++ [v]).drop (l.length - (k - 1)) =
          l.drop (l.length - (k - 1)) ++ [v] :=
        List.drop_append_of_le_length (by omega)
      have htake : ((l ++ [v]).drop (l.length - (k - 1))).take k =
          l.drop (l.length - (k - 1)) ++ [v] := by
        rw [hdrop]
        apply List.take_of_length_le
        rw [List.length_append, List.length_singleton, List.length_drop]
        omega
      rw [htake] at hx
      rcases List.mem_append.mp hx with hx | hx
      · exact hsuff x hx
      · rw [List.mem_singleton.mp hx]
        exact hpv

/-- The max-run counter of the fold is at least `k` iff some window of `k`
consecutive all-`p` entries exists. -/
theorem runFold_snd_ge (p : ℚ → Bool) :
    ∀ (l : List ℚ) (k : ℕ), k ≤ (runFold p l).2 ↔ hasRun k p l := by
  intro l
  induction l using List.reverseRecOn with
  | nil =>
    intro k
    constructor
    · intro h
      have hk0 : k = 0 := by simpa [runFold] using h
      exact ⟨0, by simp [hk0], by simp [hk0]⟩
    · rintro ⟨i, hik, -⟩
      simp only [List.length_nil, Nat.le_zero] at hik
      simp [runFold]
      omega
  | append_singleton l v ih =>
    intro k
    rcases Nat.eq_zero_or_pos k with rfl | hk
    · constructor
      · intro _
        exact ⟨0, by simp, by simp⟩
      · intro _
        exact Nat.zero_le _
    · rw [runFold_append, hasRun_append_iff p l v k hk]
      by_cases hv : p v = true
      · rw [if_pos hv]
        show k ≤ max (runFold p l).2 ((runFold p l).1 + 1) ↔ _
        rw [le_max_iff, ih k, runFold_fst p l]
        constructor
        · rintro (h | h)
          · exact Or.inl h
          · exact Or.inr ⟨hv, by omega⟩
        · rintro (h | ⟨-, h⟩)
          · exact Or.inl h
          · exact Or.inr (by omega)
      · rw [if_neg hv]
        show k ≤ (runFold p l).2 ↔ _
        rw [ih k]
        constructor
        · exact Or.inl
        · rintro (h | ⟨hpv, -⟩)
          · exact h
          · exact absurd hpv hv

/-- The above-mean components of the four-counter fold of `analyzeRuns`
project onto the reference two-counter fold. -/
theorem foldl_runStep_above (mean : ℚ) :
    ∀ (l : List ℚ) (a b c d : ℕ),
      (l.foldl (spcUtils.runStep mean) (a, b, c, d)).2.2.1 =
        (l.foldl (fun (s : ℕ × ℕ) w =>
          if decide (mean < w) then (s.1 + 1, max s.2 (s.1 + 1)) else (0, s.2)) (a, c)).2 := by
  intro l
  induction l with
  | nil => intro a b c d; rfl
  | cons x t ih =>
    intro a b c d
    rw [List.foldl_cons, List.foldl_cons]
    rcases lt_trichotomy mean x with h | h | h
    · simp only [spcUtils.runStep]
      rw [if_pos h, if_pos (show decide (mean < x) = true by simp [h])]
      exact ih (a + 1) 0 (max c (a + 1)) d
    · subst h
      simp only [spcUtils.runStep]
      rw [if_neg (lt_irrefl mean), if_neg (lt_irrefl mean),
        if_neg (show ¬ decide (mean < mean) = true by simp)]
      exact ih 0 0 c d
    · have h1 : ¬ mean < x := not_lt_of_gt h
      simp only [spcUtils.runStep]
      rw [if_neg h1, if_pos h, if_neg (show ¬ decide (mean < x) = true by simp [h1])]
      exact ih 0 (b + 1) c (max d (b + 1))

/-- The below-mean components of the four-counter fold of `analyzeRuns`
project onto the reference two-counter fold. -/
theorem foldl_runStep_below (mean : ℚ) :
    ∀ (l : List ℚ) (a b c d : ℕ),
      (l.foldl (spcUtils.runStep mean) (a, b, c, d)).2.2.2 =
        (l.foldl (fun (s : ℕ × ℕ) w =>
          if decide (w < mean) then (s.1 + 1, max s.2 (s.1 + 1)) else (0, s.2)) (b, d)).2 := by
  intro l
  induction l with
  | nil => intro a b c d; rfl
  | cons x t ih =>
    intro a b c d
    rw [List.foldl_cons, List.foldl_cons]
    rcases lt_trichotomy mean x with h | h | h
    · have h1 : ¬ x < mean := not_lt_of_gt h
      simp only [spcUtils.runStep]
      rw [if_pos h, if_neg (show ¬ decide (x < mean) = true by simp [h1])]
      exact ih (a + 1) 0 (max c (a + 1)) d
    · subst h
      simp only [spcUtils.runStep]
      rw [if_neg (lt_irrefl mean), if_neg (lt_irrefl mean),
        if_neg (show ¬ decide (mean < mean) = true by simp)]
      exact ih 0 0 c d
    · have h1 : ¬ mean < x := not_lt_of_gt h
      simp only [spcUtils.runStep]
      rw [if_neg h1, if_pos h, if_pos (show decide (x < mean) = true by simp [h])]
      exact ih 0 (b + 1) c (max d (b + 1))

/-- The max-run counters of `analyzeRuns` are the reference fold maxima for
the strict above/below-mean predicates. -/
theorem analyzeRuns_maxes (data : List ℚ) (mean : ℚ) (hne : data ≠ [])
    (hm : spcUtils.calculateMean data = some mean) (res : spcUtils.RunsResult)
    (hres : spcUtils.analyzeRuns data = some res) :
    res.maxRunAbove = (runFold (fun y => decide (mean < y)) data).2 ∧
    res.maxRunBelow = (runFold (fun y => decide (y < mean)) data).2 := by
  simp only [spcUtils.analyzeRuns, if_neg hne, hm, Option.some.injEq] at hres
  subst hres
  constructor
  · show (data.foldl (spcUtils.runStep mean) (0, 0, 0, 0)).2.2.1 = _
    rw [foldl_runStep_above mean data 0 0 0 0]
    rfl
  · show (data.foldl (spcUtils.runStep mean) (0, 0, 0, 0)).2.2.2 = _
    rw [foldl_runStep_below mean data 0 0 0 0]
    rfl

/-- The subgroup mean sequence is non-empty whenever the measurements
are. -/
theorem calculateSubgroupXBar_ne_nil (ms : List ℚ) (n : ℕ) (hms : ms ≠ []) (hn : n ≠ 0) :
    spcUtils.calculateSubgroupXBar ms n ≠ [] := by
  rw [spcUtils.calculateSubgroupXBar]
  split
  · exact hms
  · rw [spcUtils.xBarLoop, dif_neg (by push_neg; exact ⟨hn, hms⟩)]
    simp

/-- The stability verdict of `analysisCore`, characterised against the
spec-side notions: "Stable" iff every subgroup mean lies within the
mean-chart limits and no 8-point strictly-above or strictly-below run
around the center line exists. -/
theorem analysisCore_stability (ms : List ℚ) (sd : ℝ) (lsl usl : ℚ) (n : ℕ)
    (hms : ms ≠ []) (hn : n ≠ 0) :
    ((spcUtils.analysisCore ms sd lsl usl n).processStability = "Stable" ↔
      ((∀ y ∈ spcUtils.calculateSubgroupXBar ms n,
          spcUtils.xBarLclOf ms n ≤ y ∧ y ≤ spcUtils.xBarUclOf ms n) ∧
        ¬ hasRun 8 (fun y => decide (spcUtils.grandMeanOf ms n < y))
          (spcUtils.calculateSubgroupXBar ms n) ∧
        ¬ hasRun 8 (fun y => decide (y < spcUtils.grandMeanOf ms n))
          (spcUtils.calculateSubgroupXBar ms n))) := by
  have hxne := calculateSubgroupXBar_ne_nil ms n hms hn
  have hmean : spcUtils.calculateMean (spcUtils.calculateSubgroupXBar ms n) =
      some (spcUtils.grandMeanOf ms n) := by
    unfold spcUtils.grandMeanOf
    rw [spcUtils.calculateMean, if_neg hxne]
    rfl
  obtain ⟨res, hres⟩ : ∃ res, spcUtils.analyzeRuns (spcUtils.calculateSubgroupXBar ms n) =
      some res := by
    rw [spcUtils.analyzeRuns, if_neg hxne, hmean]
    exact ⟨_, rfl⟩
  obtain ⟨hab, hbl⟩ := analyzeRuns_maxes _ _ hxne hmean res hres
  simp only [spcUtils.analysisCore, hres, Option.getD_some]
  rw [hab, hbl]
  have hiff : ∀ b : Bool, ((if b = true then "Stable" else "Unstable") = "Stable") ↔ b = true := by
    intro b
    cases b
    · simp
    · simp
  rw [hiff]
  simp only [Bool.and_eq_true, decide_eq_true_eq, Bool.not_eq_true', Bool.or_eq_false_iff,
    decide_eq_false_iff_not]
  constructor
  · rintro ⟨h0, h1, h2⟩
    refine ⟨?_, ?_, ?_⟩
    · intro y hy
      have hy2 := List.filter_eq_nil_iff.mp (List.length_eq_zero.mp h0) y hy
      simp only [Bool.or_eq_true, decide_eq_true_eq, not_or, not_lt] at hy2
      exact ⟨hy2.2, hy2.1⟩
    · rw [← runFold_snd_ge]
      omega
    · rw [← runFold_snd_ge]
      omega
  · rintro ⟨h0, h1, h2⟩
    rw [← runFold_snd_ge] at h1 h2
    refine ⟨?_, by omega, by omega⟩
    rw [List.length_eq_zero]
    apply List.filter_eq_nil_iff.mpr
    intro y hy
    simp only [Bool.or_eq_true, decide_eq_true_eq, not_or, not_lt]
    exact ⟨(h0 y hy).2, (h0 y hy).1⟩

/-! ## Claim C8 -/

/-- C8: for every completed analysis, processStability is "Stable" iff the
mean-chart sequence has zero points outside its control limits and no run of
8 consecutive points strictly on one side of the center line exists;
otherwise it is "Unstable". -/
theorem claim_C8 (input : List InspectionData) (s : ℤ) (r : spcUtils.AnalysisResult)
    (h : spcUtils.calculateAnalysisData input s = Except.ok r) :
    r.processStability = "Stable" ↔
      ((∀ y ∈ r.xBarValues, r.xBarLcl ≤ y ∧ y ≤ r.xBarUcl) ∧
        ¬ hasRun 8 (fun y => decide (r.grandMean < y)) r.xBarValues ∧
        ¬ hasRun 8 (fun y => decide (y < r.grandMean)) r.xBarValues) := by
  obtain ⟨d0, rest, sd, hv, hs1, hs5, hlen, hsd, hr⟩ := calc_ok_elim h
  subst hr
  have hms : spcUtils.measurementsOf input ≠ [] := by
    intro he
    rw [he] at hlen
    simp at hlen
    omega
  have hn : s.toNat ≠ 0 := by omega
  exact analysisCore_stability (spcUtils.measurementsOf input) sd
    (d0.FromSpecification.getD 0) (d0.ToSpecification.getD 0) s.toNat hms hn

/-- C8 witness: the concrete completing run on `sampleBatch`. -/
theorem claim_C8_witness :
    (spcUtils.analysisCore [1, 3] 1 0 10 1).processStability = "Stable" ↔
      ((∀ y ∈ (spcUtils.analysisCore [1, 3] 1 0 10 1).xBarValues,
          (spcUtils.analysisCore [1, 3] 1 0 10 1).xBarLcl ≤ y ∧
            y ≤ (spcUtils.analysisCore [1, 3] 1 0 10 1).xBarUcl) ∧
        ¬ hasRun 8 (fun y => decide ((spcUtils.analysisCore [1, 3] 1 0 10 1).grandMean < y))
          (spcUtils.analysisCore [1, 3] 1 0 10 1).xBarValues ∧
        ¬ hasRun 8 (fun y => decide (y < (spcUtils.analysisCore [1, 3] 1 0 10 1).grandMean))
          (spcUtils.analysisCore [1, 3] 1 0 10 1).xBarValues) :=
  claim_C8 sampleBatch 1 (spcUtils.analysisCore [1, 3] 1 0 10 1) sampleBatch_ok
